import Mathlib

/-!
Verification of the SEI client (tests-sei repository).

This file gives a shallow embedding, in Lean 4, of the core parsing and
orchestration logic of the repository:

* `src/sei_client/documents.py` — the script-literal decoder
  (`_convert_js_literal`, `_parse_infra_args`), the signature-name
  extraction (`_extract_assinatura_nomes`, `_extract_alert_text`) and the
  document-tree parser (`parse_documentos_do_iframe`);
* `src/sei_client/processes.py` — pagination metadata
  (`_parse_caption_info`, `obter_paginacao_info`), the page-advance form
  override (`submeter_paginacao`), listing dedup (`extrair_processos`) and
  the pagination loop of `coletar_processos_com_paginacao`;
* `src/sei_client/dom.py` — form serialization (`serializar_inputs`,
  `processar_radios_nao_marcados`, `serializar_formulario`);
* `src/sei_client/models.py` — the data model (`Documento`, `Processo`,
  `PaginationInfo`, `PaginationOptions.limite_para`, `PDFDownloadResult`);
* `src/sei_client/pdf.py` — the retry loop of `baixar_pdf_processo` and
  the sequential batch of `baixar_pdfs_em_lote`.

Embedding conventions:

* The regular-expression lexing passes (`RE_INFRA_NO`, `RE_NO_ASSIGNMENT`,
  `RE_INFRA_ACAO` in `documents.py`) are abstracted: a script text is
  represented by the three match streams those `finditer` calls produce,
  in textual order — node declarations `(slot, raw-args)`, property
  mutations `(slot, prop, raw-value)` and action declarations
  `(slot, raw-args)`.  Everything downstream of the regex matches is
  translated from the source.
* `ast.literal_eval` is modelled by a purpose-built recursive-descent
  parser restricted to the literal grammar the SEI scripts actually use:
  quoted strings (both quote characters, with the common backslash
  escapes), signed integers, `None`/`True`/`False`, and one level of
  bracketed lists or tuples.  Deeper nesting, floats and other Python
  literal forms are outside the modelled grammar and decode as failures.
* HTTP, file-system and logging effects are outside the embedding; the
  retry orchestration of `pdf.py` is modelled over an abstract per-attempt
  outcome function, exactly as its unit tests stub it.
* Python `dict`s are modelled as association lists with Python insertion
  semantics (update-in-place for an existing key, append for a new key).
-/

namespace SEI

/-- A decoded Python scalar value, as produced by `ast.literal_eval` on the
script literals of the SEI document tree (`None`, booleans, ints, strings). -/
inductive PyVal where
  | pynone
  | pybool (b : Bool)
  | pyint (n : Int)
  | pystr (s : String)
deriving Repr, DecidableEq, Inhabited

/-- A decoded Python term: either a scalar or a (one-level) list of scalars.
Lists appear as argument values and as metadata values
(`acoes_icones`, `assinatura_alertas`). -/
inductive PyTerm where
  | scalar (v : PyVal)
  | list (xs : List PyVal)
deriving Repr, DecidableEq, Inhabited

/-- The single-quote character, written by code point to keep source plain. -/
def squoteChar : Char := Char.ofNat 39

/-- The double-quote character. -/
def dquoteChar : Char := Char.ofNat 34

/-- The backslash character. -/
def bslashChar : Char := Char.ofNat 92

/-- Is `c` one of the two Python/JS quote characters? -/
def isQuote (c : Char) : Bool := c = squoteChar ∨ c = dquoteChar

/-- Whitespace, as used by Python `str.strip` and by `\s` in `re` patterns.
Modelled set: space, tab, LF, CR, FF, VT, NEL and NBSP (the characters that
occur in SEI pages). -/
def isPyWS (c : Char) : Bool :=
  c = ' ' ∨ c = Char.ofNat 9 ∨ c = Char.ofNat 10 ∨ c = Char.ofNat 13 ∨
  c = Char.ofNat 12 ∨ c = Char.ofNat 11 ∨ c = Char.ofNat 133 ∨ c = Char.ofNat 160

/-- A word character for the purposes of `\b` in `re` patterns (ASCII model). -/
def isWordChar (c : Char) : Bool := c.isAlphanum ∨ c = '_'

/-- Drop leading modelled whitespace. -/
def skipWS : List Char → List Char
  | [] => []
  | c :: rest => if isPyWS c then skipWS rest else c :: rest

/-- Python `str.strip()` on a character list. -/
def stripChars (cs : List Char) : List Char :=
  ((cs.dropWhile isPyWS).reverse.dropWhile isPyWS).reverse

/-- Python `str.strip()`. -/
def pyStrip (s : String) : String := String.mk (stripChars s.data)

/-- ASCII lower-casing, modelling Python `str.lower()` on the ASCII texts
SEI produces. -/
def asciiLower (s : String) : String := String.mk (s.data.map Char.toLower)

/-- ASCII upper-casing, modelling Python `str.upper()`. -/
def asciiUpper (s : String) : String := String.mk (s.data.map Char.toUpper)

/-- Python `s.startswith(pre)`. -/
def strStartsWith (s pre : String) : Bool := pre.data.isPrefixOf s.data

/-- Left-to-right non-overlapping replacement scan (Python `str.replace`;
an empty pattern is treated as no occurrence). -/
def replaceAllAux (pat repl : List Char) : Nat → List Char → List Char
  | 0, cs => cs
  | fuel + 1, cs =>
    match cs with
    | [] => []
    | c :: rest =>
      if pat.isPrefixOf cs ∧ pat ≠ [] then
        repl ++ replaceAllAux pat repl fuel (cs.drop pat.length)
      else c :: replaceAllAux pat repl fuel rest

/-- Python `s.replace(pat, repl)`. -/
def strReplace (s pat repl : String) : String :=
  String.mk (replaceAllAux pat.data repl.data (s.length + 1) s.data)

/-- Split scan for `str.split(sep)` with a non-empty separator. -/
def splitOnAuxL (sep : List Char) : Nat → List Char → List Char → List (List Char)
  | 0, cur, cs => [cur.reverse ++ cs]
  | fuel + 1, cur, cs =>
    match cs with
    | [] => [cur.reverse]
    | c :: rest =>
      if sep.isPrefixOf cs ∧ sep ≠ [] then
        cur.reverse :: splitOnAuxL sep fuel [] (cs.drop sep.length)
      else splitOnAuxL sep fuel (c :: cur) rest

/-- Python `s.split(sep)` (non-empty separator; empty parts kept). -/
def strSplitOn (s sep : String) : List String :=
  (splitOnAuxL sep.data (s.length + 1) [] s.data).map String.mk

/-- Is `needle` a contiguous infix of `hay`? -/
def listInfix (needle : List Char) : List Char → Bool
  | [] => needle.isPrefixOf []
  | c :: rest => needle.isPrefixOf (c :: rest) || listInfix needle rest

/-- `needle in hay`, Python substring containment. -/
def strContains (hay needle : String) : Bool := listInfix needle.data hay.data

/-- Maximal digit prefix of a character list, with the remainder. -/
def digitRun : List Char → List Char × List Char
  | [] => ([], [])
  | c :: rest =>
    if c.isDigit then
      let (ds, r) := digitRun rest
      (c :: ds, r)
    else ([], c :: rest)

/-- Numeric value of a digit run. -/
def natOfDigits (ds : List Char) : Nat :=
  ds.foldl (fun n c => 10 * n + (c.toNat - 48)) 0

/-- If `lit` is a prefix of `cs`, the remainder after it. -/
def dropLit (lit : List Char) (cs : List Char) : Option (List Char) :=
  if lit.isPrefixOf cs then some (cs.drop lit.length) else Option.none

/-- One keyword replacement step of
`re.sub(r"\b(null|true|false)\b", ...)` (`documents.py` lines 36–41 and 59):
if `cs` starts with a keyword followed by a non-word boundary, give the
replacement text and the remainder. -/
def matchKeyword (cs : List Char) : Option (List Char × List Char) :=
  let try1 := fun (kw repl : String) =>
    match dropLit kw.data cs with
    | some rem =>
      match rem.head? with
      | some c => if isWordChar c then Option.none else some (repl.data, rem)
      | Option.none => some (repl.data, rem)
    | Option.none => Option.none
  match try1 "null" "None" with
  | some r => some r
  | Option.none =>
    match try1 "true" "True" with
    | some r => some r
    | Option.none => try1 "false" "False"

/-- Scan of the keyword substitution: `prevWord` records whether the previous
character was a word character (for the leading `\b`). -/
def replaceKeywordsAux : Nat → Bool → List Char → List Char
  | 0, _, cs => cs
  | fuel + 1, prevWord, cs =>
    match cs with
    | [] => []
    | c :: rest =>
      match (if prevWord then Option.none else matchKeyword cs) with
      | some (repl, rem) => repl ++ replaceKeywordsAux fuel true rem
      | Option.none => c :: replaceKeywordsAux fuel (isWordChar c) rest

/-- `re.sub(r"\b(null|true|false)\b", {null: None, true: True, false: False})`. -/
def replaceKeywords (cs : List Char) : List Char :=
  replaceKeywordsAux (cs.length + 1) false cs

/-- Tail of the `.concat(` idiom pattern: up to two quote characters then `)`,
matched greedily as the regex `['\"]{0,1}['\"]{0,1}\)` does
(`documents.py` line 34). Returns the remainder after the match. -/
def matchConcatTail (cs : List Char) : Option (List Char) :=
  match cs with
  | c1 :: c2 :: c3 :: rest =>
    if isQuote c1 ∧ isQuote c2 ∧ c3 = ')' then some rest
    else if isQuote c1 ∧ c2 = ')' then some (c3 :: rest)
    else if c1 = ')' then some (c2 :: c3 :: rest)
    else Option.none
  | c1 :: c2 :: [] =>
    if isQuote c1 ∧ c2 = ')' then some []
    else if c1 = ')' then some [c2]
    else Option.none
  | c1 :: [] => if c1 = ')' then some [] else Option.none
  | [] => Option.none

/-- Match the whole `.concat('')` idiom at the head of `cs`. -/
def matchConcat (cs : List Char) : Option (List Char) :=
  match dropLit ".concat(".data cs with
  | some rem => matchConcatTail rem
  | Option.none => Option.none

/-- Scan removing every occurrence of the concat idiom. -/
def removeConcatAux : Nat → List Char → List Char
  | 0, cs => cs
  | fuel + 1, cs =>
    match cs with
    | [] => []
    | c :: rest =>
      match matchConcat cs with
      | some rem => removeConcatAux fuel rem
      | Option.none => c :: removeConcatAux fuel rest

/-- `re.sub(r"\.concat\(['\"]{0,1}['\"]{0,1}\)", "", cleaned)`. -/
def removeConcat (cs : List Char) : List Char := removeConcatAux (cs.length + 1) cs

/-- Decoding of one backslash escape inside a Python string literal
(the escapes that occur in SEI scripts; an unknown escape keeps both
characters, as Python does). -/
def escChar (e : Char) : List Char :=
  if e = 'n' then [Char.ofNat 10]
  else if e = 't' then [Char.ofNat 9]
  else if e = 'r' then [Char.ofNat 13]
  else if e = bslashChar ∨ e = squoteChar ∨ e = dquoteChar then [e]
  else [bslashChar, e]

/-- Body of a quoted Python string literal after the opening quote `q`:
content characters and the remainder after the closing quote. -/
def parseStrChars (q : Char) : List Char → Option (List Char × List Char)
  | [] => Option.none
  | c :: rest =>
    if c = q then some ([], rest)
    else if c = bslashChar then
      match rest with
      | [] => Option.none
      | e :: rest2 =>
        match parseStrChars q rest2 with
        | some (s, rem) => some (escChar e ++ s, rem)
        | Option.none => Option.none
    else
      match parseStrChars q rest with
      | some (s, rem) => some (c :: s, rem)
      | Option.none => Option.none

/-- One scalar literal (string, signed integer, `None`, `True`, `False`),
with leading whitespace allowed; the remainder follows the literal. -/
def parseScalar (cs : List Char) : Option (PyVal × List Char) :=
  match skipWS cs with
  | [] => Option.none
  | c :: rest =>
    if isQuote c then
      match parseStrChars c rest with
      | some (s, rem) => some (PyVal.pystr (String.mk s), rem)
      | Option.none => Option.none
    else if c = '-' ∨ c = '+' then
      match digitRun rest with
      | ([], _) => Option.none
      | (ds, r) =>
        let n : Int := natOfDigits ds
        some (PyVal.pyint (if c = '-' then -n else n), r)
    else if c.isDigit then
      match digitRun (c :: rest) with
      | (ds, r) => some (PyVal.pyint (natOfDigits ds), r)
    else
      match dropLit "None".data (c :: rest) with
      | some rem => some (PyVal.pynone, rem)
      | Option.none =>
        match dropLit "True".data (c :: rest) with
        | some rem => some (PyVal.pybool true, rem)
        | Option.none =>
          match dropLit "False".data (c :: rest) with
          | some rem => some (PyVal.pybool false, rem)
          | Option.none => Option.none

/-- Comma-separated scalars up to the closing bracket `close`
(at least one element; a trailing comma is allowed, as in Python). -/
def parseListElems (close : Char) : Nat → List Char → Option (List PyVal × List Char)
  | 0, _ => Option.none
  | fuel + 1, cs =>
    match parseScalar cs with
    | Option.none => Option.none
    | some (v, rem) =>
      match skipWS rem with
      | [] => Option.none
      | c :: rest =>
        if c = close then some ([v], rest)
        else if c = ',' then
          let rest1 := skipWS rest
          if rest1.head? = some close then some ([v], rest1.tail)
          else
            match parseListElems close fuel rest1 with
            | some (vs, r) => some (v :: vs, r)
            | Option.none => Option.none
        else Option.none

/-- A bracketed scalar list after its opening bracket. -/
def parseListAfterOpen (close : Char) (fuel : Nat) (cs : List Char) :
    Option (List PyVal × List Char) :=
  let cs1 := skipWS cs
  if cs1.head? = some close then some ([], cs1.tail)
  else parseListElems close fuel cs1

/-- One term: a scalar, or a one-level list `[...]` / tuple `(...)`. -/
def parseTermCore (fuel : Nat) (cs : List Char) : Option (PyTerm × List Char) :=
  match skipWS cs with
  | [] => Option.none
  | c :: rest =>
    if c = '[' then
      match parseListAfterOpen ']' fuel rest with
      | some (vs, r) => some (PyTerm.list vs, r)
      | Option.none => Option.none
    else if c = '(' then
      match parseListAfterOpen ')' fuel rest with
      | some (vs, r) => some (PyTerm.list vs, r)
      | Option.none => Option.none
    else
      match parseScalar (c :: rest) with
      | some (v, r) => some (PyTerm.scalar v, r)
      | Option.none => Option.none

/-- `ast.literal_eval` on one fragment, restricted to the modelled grammar.
`Option.none` models the `ValueError`/`SyntaxError` failure branch. -/
def literalEval (s : String) : Option PyTerm :=
  match parseTermCore (s.length + 1) s.data with
  | some (v, rem) => if skipWS rem = [] then some v else Option.none
  | Option.none => Option.none

/-- Comma-separated terms ending at the end of input (the content of the
`[{texto}]` wrapper of `_parse_infra_args`); a trailing comma is allowed. -/
def parseArgElems : Nat → List Char → Option (List PyTerm)
  | 0, _ => Option.none
  | fuel + 1, cs =>
    match parseTermCore fuel cs with
    | Option.none => Option.none
    | some (v, rem) =>
      match skipWS rem with
      | [] => some [v]
      | c :: rest =>
        if c = ',' then
          let rest1 := skipWS rest
          if rest1 = [] then some [v]
          else
            match parseArgElems fuel rest1 with
            | some vs => some (v :: vs)
            | Option.none => Option.none
        else Option.none

/-- `ast.literal_eval(f"[{texto}]")` for a non-empty `texto`, as a list of
decoded terms.  (The source's `isinstance` tuple branch corresponds to a
top-level bare tuple, outside the modelled grammar; such input decodes as a
failure here.) -/
def argsListEval (texto : String) : Option (List PyTerm) :=
  parseArgElems (texto.length + 1) texto.data

/-- The text `_convert_js_literal` feeds to `ast.literal_eval`
(`documents.py` lines 30–41): stripped, concat idiom removed, keywords
substituted. -/
def normalizeLiteral (value : String) : String :=
  String.mk (replaceKeywords (removeConcat (pyStrip value).data))

/-- The failure fallback of `_convert_js_literal` (`documents.py`
lines 47–50): the cleaned text, unquoted when it is quote-delimited. -/
def unquoteFallback (cleaned : String) : String :=
  let cs := cleaned.data
  if (match cs.head? with | some c => isQuote c | Option.none => false)
      && (match cs.getLast? with | some c => isQuote c | Option.none => false)
      && decide (2 ≤ cs.length) then
    String.mk ((cs.drop 1).dropLast)
  else cleaned

/-- `_convert_js_literal` (`documents.py` lines 28–50): strip, remove the
`.concat('')` idiom, substitute `null`/`true`/`false`, evaluate; on failure
fall back to the cleaned text, unquoted when it is quote-delimited. -/
def convert_js_literal (value : String) : PyTerm :=
  if pyStrip value = "" then PyTerm.scalar (PyVal.pystr "")
  else
    let cleaned := normalizeLiteral value
    match literalEval cleaned with
    | some v => v
    | Option.none => PyTerm.scalar (PyVal.pystr (unquoteFallback cleaned))

/-- The keyword-substituted argument text of `_parse_infra_args`
(`documents.py` line 59). -/
def normalizeArgs (argsStr : String) : String :=
  String.mk (replaceKeywords (pyStrip argsStr).data)

/-- `_parse_infra_args` (`documents.py` lines 53–70): strip, substitute
keywords, evaluate the bracketed argument list; an empty list on failure. -/
def parse_infra_args (argsStr : String) : List PyTerm :=
  if pyStrip argsStr = "" then []
  else
    match argsListEval (normalizeArgs argsStr) with
    | some xs => xs
    | Option.none => []

/-! ### Python `dict` as an association list (insertion-ordered). -/

/-- Lookup, `d.get(k)`. -/
def dictGet? {α β : Type} [DecidableEq α] (k : α) : List (α × β) → Option β
  | [] => Option.none
  | (k0, v0) :: rest => if k0 = k then some v0 else dictGet? k rest

/-- `d[k] = v`: replace in place when the key exists, else append. -/
def dictInsert {α β : Type} [DecidableEq α] (k : α) (v : β) :
    List (α × β) → List (α × β)
  | [] => [(k, v)]
  | (k0, v0) :: rest =>
    if k0 = k then (k0, v) :: rest else (k0, v0) :: dictInsert k v rest

/-- Update the value at an existing key in place (no effect when absent). -/
def dictUpdate {α β : Type} [DecidableEq α] (k : α) (f : β → β) :
    List (α × β) → List (α × β)
  | [] => []
  | (k0, v0) :: rest =>
    if k0 = k then (k0, f v0) :: rest else (k0, v0) :: dictUpdate k f rest

/-- `k in d`. -/
def dictContains {α β : Type} [DecidableEq α] (k : α) (st : List (α × β)) : Bool :=
  (dictGet? k st).isSome

/-- `d.setdefault(k, v)` (the resulting dict). -/
def dictSetdefault {α β : Type} [DecidableEq α] (k : α) (v : β)
    (st : List (α × β)) : List (α × β) :=
  if dictContains k st then st else dictInsert k v st

/-- Shorthand for a string-valued metadata term. -/
def pystrTerm (s : String) : PyTerm := PyTerm.scalar (PyVal.pystr s)

/-- `metadados.setdefault(k, []).append(x)`: ensure a list value at `k` and
append the string `x` to it. -/
def metaAppendStr (k : String) (x : String) (st : List (String × PyTerm)) :
    List (String × PyTerm) :=
  let st1 := dictSetdefault k (PyTerm.list []) st
  dictUpdate k (fun v =>
    match v with
    | PyTerm.list xs => PyTerm.list (xs ++ [PyVal.pystr x])
    | other => other) st1

/-! ### Data model (`models.py`) and URL helpers (`http.py`, `processes.py`). -/

/-- The configuration fields the embedded functions read (`config.py`). -/
structure Settings where
  base_url : String
deriving Repr, DecidableEq, Inhabited

/-- `models.Documento`. -/
structure Documento where
  id_documento : String
  titulo : Option String := Option.none
  tipo : Option String := Option.none
  url : Option String := Option.none
  hash : Option String := Option.none
  download_url : Option String := Option.none
  visualizacao_url : Option String := Option.none
  indicadores : List String := []
  assinantes : List String := []
  eh_sigiloso : Bool := false
  possui_assinaturas : Bool := false
  eh_novo : Bool := false
  metadados : List (String × PyTerm) := []
deriving Repr, DecidableEq, Inhabited

/-- The two listing categories. -/
inductive Categoria where
  | Recebidos
  | Gerados
deriving Repr, DecidableEq, Inhabited

/-- `models.Processo` (the fields the embedded functions touch). -/
structure Processo where
  numero_processo : String
  id_procedimento : String
  url : String
  visualizado : Bool
  categoria : Categoria
  titulo : Option String := Option.none
  tipo_especificidade : Option String := Option.none
  responsavel_nome : Option String := Option.none
  responsavel_cpf : Option String := Option.none
  marcadores : List String := []
  tem_documentos_novos : Bool := false
  tem_anotacoes : Bool := false
  hash : String := ""
  documentos : List Documento := []
  eh_sigiloso : Bool := false
  assinantes : List String := []
  metadados : List (String × PyTerm) := []
deriving Repr, DecidableEq, Inhabited

/-- Python `a or b` for optional strings (`None` and `""` are falsy). -/
def strOr (a b : Option String) : Option String :=
  match a with
  | some s => if s = "" then b else some s
  | Option.none => b

/-- Python `a or b` with a plain-string right operand. -/
def strOrD (a : Option String) (b : String) : String :=
  match a with
  | some s => if s = "" then b else s
  | Option.none => b

/-- Keep an optional string only when it is truthy (non-`None`, non-empty). -/
def truthy (a : Option String) : Option String :=
  match a with
  | some s => if s = "" then Option.none else some s
  | Option.none => Option.none

/-- Python `repr` of a decoded scalar (modelled with single-quoted strings
and no escaping, the forms that occur in the SEI trees). -/
def pyScalarRepr (v : PyVal) : String :=
  match v with
  | PyVal.pynone => "None"
  | PyVal.pybool b => if b then "True" else "False"
  | PyVal.pyint n => toString n
  | PyVal.pystr s => String.mk [squoteChar] ++ s ++ String.mk [squoteChar]

/-- `_as_optional_str` (`documents.py` lines 73–79): `None` stays `None`,
strings pass through, other values go through `str()`. -/
def as_optional_str (v : PyTerm) : Option String :=
  match v with
  | PyTerm.scalar PyVal.pynone => Option.none
  | PyTerm.scalar (PyVal.pystr s) => some s
  | PyTerm.scalar (PyVal.pybool b) => some (if b then "True" else "False")
  | PyTerm.scalar (PyVal.pyint n) => some (toString n)
  | PyTerm.list xs =>
    some ("[" ++ String.intercalate ", " (xs.map pyScalarRepr) ++ "]")

/-- Python `href.lstrip("/")`. -/
def lstripSlash (s : String) : String := String.mk (s.data.dropWhile (· = '/'))

/-- `absolute_to_sei` (`http.py` lines 34–38).  `urljoin` is modelled for the
only reachable case: a base ending in `/sei/` joined with a slash-stripped
relative reference. -/
def absolute_to_sei (st : Settings) (href : String) : String :=
  if strStartsWith href "http" then href
  else st.base_url ++ "/sei/" ++ lstripSlash href

/-- The `k=v` pairs of a URL query string (between the first `?` and any `#`),
without percent-decoding (the consumed values are plain).  Pairs without `=`
are dropped, as `urllib.parse.parse_qs` does. -/
def queryPairs (url : String) : List (String × String) :=
  let afterQ := ((url.data.dropWhile (· ≠ '?')).drop 1).takeWhile (· ≠ '#')
  (strSplitOn (String.mk afterQ) "&").filterMap (fun part =>
    let cs := part.data
    let k := cs.takeWhile (· ≠ '=')
    let v := cs.dropWhile (· ≠ '=')
    if v = [] then Option.none else some (String.mk k, String.mk (v.drop 1)))

/-- `extrair_hash_da_url` (`processes.py` lines 56–65): the first non-blank
`infra_hash` query value, or `""` (`parse_qs` drops blank values). -/
def extrair_hash_da_url (url : String) : String :=
  match (queryPairs url).find? (fun kv => kv.1 = "infra_hash" && kv.2 ≠ "") with
  | some kv => kv.2
  | Option.none => ""

/-- `extrair_id_procedimento_da_url` (`processes.py` lines 44–53). -/
def extrair_id_procedimento_da_url (url : String) : String :=
  match (queryPairs url).find? (fun kv => kv.1 = "id_procedimento" && kv.2 ≠ "") with
  | some kv => kv.2
  | Option.none => ""

/-! ### Alert-text and signature-name extraction (`documents.py`). -/

/-- The LF character. -/
def lfChar : Char := Char.ofNat 10

/-- The CR character. -/
def crChar : Char := Char.ofNat 13

/-- Content of the first `alert(q...q)` occurrence, from a given position:
the shortest content followed by the opening quote and `)` (the non-greedy
`.*?` of the pattern). -/
def alertClose (q : Char) : List Char → Option (List Char)
  | [] => Option.none
  | c :: rest =>
    if c = q ∧ rest.head? = some ')' then some []
    else
      match alertClose q rest with
      | some content => some (c :: content)
      | Option.none => Option.none

/-- Leftmost-match scan for `alert\((['\"])(?P<content>.*?)\1\)`. -/
def alertScan : Nat → List Char → Option (List Char)
  | 0, _ => Option.none
  | fuel + 1, cs =>
    match cs with
    | [] => Option.none
    | _ :: rest =>
      match dropLit "alert(".data cs with
      | some r1 =>
        (match r1 with
          | q :: r2 =>
            if isQuote q then
              match alertClose q r2 with
              | some content => some content
              | Option.none => alertScan fuel rest
            else alertScan fuel rest
          | [] => alertScan fuel rest)
      | Option.none => alertScan fuel rest

/-- The escape-sequence replacements of `_extract_alert_text`
(`documents.py` lines 111–117), in source order. -/
def unescapeAlert (s : String) : String :=
  let bs := String.mk [bslashChar]
  let sq := String.mk [squoteChar]
  let dq := String.mk [dquoteChar]
  strReplace (strReplace (strReplace (strReplace (strReplace s
    (bs ++ "n") "\n") (bs ++ "r") "\r") (bs ++ "t") "\t") (bs ++ sq) sq)
    (bs ++ dq) dq

/-- `_extract_alert_text` (`documents.py` lines 103–118). -/
def extract_alert_text (js_code : Option String) : Option String :=
  match js_code with
  | Option.none => Option.none
  | some s =>
    if s = "" then Option.none
    else
      match alertScan (s.length + 1) s.data with
      | some content => some (unescapeAlert (String.mk content))
      | Option.none => Option.none

/-- Line splitting after newline normalisation (models `str.splitlines` for
the LF/CR/CRLF boundaries that occur in alert texts). -/
def splitLinesAux : Nat → List Char → List (List Char)
  | 0, cs => if cs = [] then [] else [cs]
  | fuel + 1, cs =>
    match cs with
    | [] => []
    | _ =>
      let line := cs.takeWhile (· ≠ lfChar)
      let rest := cs.dropWhile (· ≠ lfChar)
      match rest with
      | [] => [line]
      | _ :: rest2 => line :: splitLinesAux fuel rest2

/-- Python `str.splitlines()`. -/
def pySplitlines (s : String) : List String :=
  let lf := String.mk [lfChar]
  let norm := strReplace (strReplace s (String.mk [crChar, lfChar]) lf) (String.mk [crChar]) lf
  (splitLinesAux (norm.length + 1) norm.data).map String.mk

/-- After a LF, the greedy `\s*\n` tail of the blank-line separator
`\n\s*\n`: ends at the last LF of the maximal whitespace run.  Returns the
remainder after the match. -/
def blankMatch (rest : List Char) : Option (List Char) :=
  let w := rest.takeWhile isPyWS
  if w.contains lfChar then
    let k := w.length - 1 - (w.reverse.takeWhile (· ≠ lfChar)).length
    some (rest.drop (k + 1))
  else Option.none

/-- Scan of `re.split(r"\n\s*\n", texto)`. -/
def splitBlankAux : Nat → List Char → List Char → List (List Char)
  | 0, cur, rest => [cur.reverse ++ rest]
  | fuel + 1, cur, cs =>
    match cs with
    | [] => [cur.reverse]
    | c :: rest =>
      if c = lfChar then
        match blankMatch rest with
        | some rest2 => cur.reverse :: splitBlankAux fuel [] rest2
        | Option.none => splitBlankAux fuel (c :: cur) rest
      else splitBlankAux fuel (c :: cur) rest

/-- `re.split(r"\n\s*\n", texto)`. -/
def splitBlankLines (s : String) : List String :=
  (splitBlankAux (s.length + 1) [] s.data).map String.mk

/-- `_append_unique` (`documents.py` lines 97–100). -/
def append_unique (target : List String) (value : String) : List String :=
  if value ≠ "" ∧ ¬ target.contains value then target ++ [value] else target

/-- The per-block body of `_extract_assinatura_nomes`: strip lines, drop a
leading "assinado por" label, take the first remaining line. -/
def nomeDoGrupo (grupo : String) : Option String :=
  let linhas := ((pySplitlines grupo).map pyStrip).filter (· ≠ "")
  match linhas with
  | [] => Option.none
  | l0 :: restL =>
    let linhas2 := if strStartsWith (asciiLower l0) "assinado por" then restL else l0 :: restL
    match linhas2 with
    | [] => Option.none
    | nome :: _ => if nome ≠ "" then some nome else Option.none

/-- One step of the signer-name accumulation (`documents.py` lines 132–144). -/
def nomesStep (acc : List String) (grupo : String) : List String :=
  match nomeDoGrupo grupo with
  | some nome => append_unique acc nome
  | Option.none => acc

/-- `_extract_assinatura_nomes` (`documents.py` lines 121–151). -/
def extract_assinatura_nomes (alert_text : String) : List String :=
  if alert_text = "" then []
  else
    let texto := pyStrip alert_text
    if texto = "" then []
    else
      let grupos := (splitBlankLines texto).filter (fun g => pyStrip g ≠ "")
      let nomes := grupos.foldl nomesStep []
      if nomes = [] ∧ strStartsWith (asciiLower texto) "assinado por" then
        let linhas := ((pySplitlines texto).map pyStrip).filter (· ≠ "")
        if 2 ≤ linhas.length then append_unique nomes (linhas.getD 1 "") else nomes
      else nomes

/-! ### Document-tree parser (`documents.py` lines 183–364).

A script text is abstracted as the three streams of regex matches, in
textual order: node declarations `Nos[i] = new infraArvoreNo(args);` as
`(i, args)`, property mutations `Nos[i].prop = value;` as
`(i, prop, value)`, and action declarations
`NosAcoes[i] = new infraArvoreAcao(args);` as `(i, args)`. -/

/-- Text runs between markup tags (simplified model of the text nodes
BeautifulSoup would produce for a flat fragment; entities not decoded). -/
def textRunsAux : Nat → List Char → List Char → List (List Char)
  | 0, cur, _ => [cur.reverse]
  | fuel + 1, cur, cs =>
    match cs with
    | [] => [cur.reverse]
    | c :: rest =>
      if c = '<' then
        let rest2 := (rest.dropWhile (· ≠ '>')).drop 1
        cur.reverse :: textRunsAux fuel [] rest2
      else textRunsAux fuel (c :: cur) rest

/-- Model of `BeautifulSoup(fragment).get_text(" ", strip=True)`:
tag-free text runs, stripped, blanks dropped, joined with one space. -/
def soupGetText (fragment : String) : String :=
  let runs := (textRunsAux (fragment.length + 1) [] fragment.data).map
    (fun r => pyStrip (String.mk r))
  String.intercalate " " (runs.filter (· ≠ ""))

/-- Value of an `href=` attribute inside a tag body (model: the attribute
name preceded by whitespace, a quoted or unquoted value). -/
def hrefScan : Nat → Bool → List Char → Option String
  | 0, _, _ => Option.none
  | fuel + 1, prevWS, cs =>
    match cs with
    | [] => Option.none
    | c :: rest =>
      match (if prevWS then dropLit "href=".data cs else Option.none) with
      | some r1 =>
        (match r1 with
          | q :: r2 =>
            if isQuote q then some (String.mk (r2.takeWhile (· ≠ q)))
            else some (String.mk ((q :: r2).takeWhile (fun ch => ¬ isPyWS ch)))
          | [] => some "")
      | Option.none => hrefScan fuel (isPyWS c) rest

/-- `_extract_first_href` (`documents.py` lines 82–94), modelled as a scan
for the first `<a ...>` tag carrying an `href` attribute. -/
def extract_first_href_core : Nat → List Char → Option String
  | 0, _ => Option.none
  | fuel + 1, cs =>
    match cs with
    | [] => Option.none
    | _ :: rest =>
      match dropLit "<a".data cs with
      | some r1 =>
        (match r1.head? with
          | some b =>
            if isPyWS b ∨ b = '>' ∨ b = '/' then
              let tagBody := r1.takeWhile (· ≠ '>')
              match hrefScan (tagBody.length + 1) true tagBody with
              | some h => some h
              | Option.none => extract_first_href_core fuel rest
            else extract_first_href_core fuel rest
          | Option.none => Option.none)
      | Option.none => extract_first_href_core fuel rest

/-- `_extract_first_href` entry point. -/
def extract_first_href (fragment : String) : Option String :=
  if fragment = "" then Option.none
  else extract_first_href_core (fragment.length + 1) fragment.data

/-- `icon_path.split("/")[-1].split("?")[0]` (`documents.py` line 244). -/
def iconSlug (icon : String) : String :=
  let last := (strSplitOn icon "/").getLastD icon
  (strSplitOn last "?").headD last

/-- The retention test of a node declaration (`documents.py` lines 206–211):
at least 7 decoded arguments and a type tag containing "DOCUMENTO"
case-insensitively. -/
def declValida (argsRaw : String) : Bool :=
  let args := parse_infra_args argsRaw
  decide (7 ≤ args.length) &&
    (match as_optional_str (args.getD 0 (PyTerm.scalar PyVal.pynone)) with
      | some t => decide (t ≠ "") && strContains (asciiUpper t) "DOCUMENTO"
      | Option.none => false)

/-- Construction of one `Documento` from a retained declaration
(`documents.py` lines 210–255). -/
def mkDocumento (st : Settings) (idx : Nat) (args : List PyTerm) : Documento :=
  let arg := fun i => args.getD i (PyTerm.scalar PyVal.pynone)
  let tipo_no := as_optional_str (arg 0)
  let id_documento := strOrD (as_optional_str (arg 1)) ""
  let parent_id := if 2 < args.length then as_optional_str (arg 2) else Option.none
  let href := as_optional_str (arg 3)
  let iframe_target := as_optional_str (arg 4)
  let aux := as_optional_str (arg 5)
  let label := strOr (as_optional_str (arg 6)) (strOr aux (some id_documento))
  let icon_path := if 7 < args.length then as_optional_str (arg 7) else Option.none
  let classe_css := if 14 < args.length then as_optional_str (arg 14) else Option.none
  let numero_documento := if 15 < args.length then as_optional_str (arg 15) else Option.none
  let meta : List (String × PyTerm) := []
  let meta := match truthy numero_documento with
    | some n => dictInsert "numero_documento" (pystrTerm n) meta
    | Option.none => meta
  let meta := match truthy parent_id with
    | some p => dictInsert "id_parent" (pystrTerm p) meta
    | Option.none => meta
  let meta := match truthy iframe_target with
    | some t => dictInsert "iframe_target" (pystrTerm t) meta
    | Option.none => meta
  let meta := match truthy tipo_no with
    | some t => dictInsert "tipo_no" (pystrTerm t) meta
    | Option.none => meta
  let icone := truthy icon_path
  let meta := match icone with
    | some icon => dictInsert "icone_slug" (pystrTerm (iconSlug icon))
        (dictInsert "icone" (pystrTerm icon) meta)
    | Option.none => meta
  let sigiloso := match icone with
    | some icon => strContains (asciiLower icon) "sigilo"
    | Option.none => false
  let classe := truthy classe_css
  let meta := match classe with
    | some c => dictInsert "classe_css" (pystrTerm c) meta
    | Option.none => meta
  let meta := dictInsert "ordem" (PyTerm.scalar (PyVal.pyint (idx : Int))) meta
  { id_documento := id_documento
    titulo := label
    tipo := tipo_no
    url := (truthy href).map (absolute_to_sei st)
    hash := (truthy href).map extrair_hash_da_url
    download_url := Option.none
    visualizacao_url := Option.none
    indicadores := match classe with | some c => [c] | Option.none => []
    assinantes := []
    eh_sigiloso := sigiloso
    possui_assinaturas := false
    eh_novo := match classe with
      | some c => strContains (asciiLower c) "novisitado"
      | Option.none => false
    metadados := meta }

/-- One step of the first pass (`documents.py` lines 203–255): a retained
declaration stores its node at its slot index. -/
def buildNodesStep (st : Settings) (acc : List (Nat × Documento))
    (d : Nat × String) : List (Nat × Documento) :=
  if declValida d.2 then dictInsert d.1 (mkDocumento st d.1 (parse_infra_args d.2)) acc
  else acc

/-- First pass: the slot-indexed store of retained declarations
(`documentos_por_indice`). -/
def buildNodes (st : Settings) (decls : List (Nat × String)) :
    List (Nat × Documento) :=
  decls.foldl (buildNodesStep st) []

/-- `documentos_por_id` (`documents.py` lines 260–262): identifier → slot,
for the nodes with a non-empty identifier (a later duplicate id wins). -/
def buildIds (store : List (Nat × Documento)) : List (String × Nat) :=
  store.foldl (fun acc p =>
    if p.2.id_documento ≠ "" then dictInsert p.2.id_documento p.1 acc else acc) []

/-- The `assinatura` property mutation (`documents.py` lines 279–285). -/
def docSetAssinatura (parsed : PyTerm) (doc : Documento) : Documento :=
  match parsed with
  | PyTerm.scalar (PyVal.pystr s) =>
    if pyStrip s ≠ "" then
      let t := soupGetText s
      if t ≠ "" then
        { doc with possui_assinaturas := true
                   assinantes := [t]
                   metadados := dictInsert "assinatura_texto" (pystrTerm t) doc.metadados }
      else doc
    else doc
  | _ => doc

/-- The `src` property mutation (`documents.py` lines 286–297).  The source's
`elif "documento_download_anexo" ...` and final `else` branch both assign
`download_url`, so they are collapsed here. -/
def docSetSrc (st : Settings) (parsed : PyTerm) (doc : Documento) : Documento :=
  match parsed with
  | PyTerm.scalar (PyVal.pystr s) =>
    if s ≠ "" then
      let url_abs := absolute_to_sei st s
      let doc :=
        if strContains (asciiLower s) "documento_visualizar" then
          { doc with visualizacao_url := some url_abs }
        else { doc with download_url := some url_abs }
      { doc with metadados := dictSetdefault "src_original" (pystrTerm s) doc.metadados }
    else doc
  | _ => doc

/-- The `html` property mutation (`documents.py` lines 298–303). -/
def docSetHtml (st : Settings) (parsed : PyTerm) (doc : Documento) : Documento :=
  match parsed with
  | PyTerm.scalar (PyVal.pystr s) =>
    if s ≠ "" then
      let doc := { doc with metadados := dictInsert "html_fragmento" (pystrTerm s) doc.metadados }
      match truthy (extract_first_href s) with
      | some h => { doc with visualizacao_url := some (absolute_to_sei st h) }
      | Option.none => doc
    else doc
  | _ => doc

/-- Second pass, one property-mutation statement (`documents.py`
lines 266–303): restricted to the three recognised properties, applied only
when slot `idx` already holds a node. -/
def applyAssign (st : Settings) (store : List (Nat × Documento))
    (a : Nat × String × String) : List (Nat × Documento) :=
  let idx := a.1
  let prop := a.2.1
  let raw := a.2.2
  if prop = "assinatura" ∨ prop = "src" ∨ prop = "html" then
    match dictGet? idx store with
    | some _ =>
      let parsed := convert_js_literal raw
      if prop = "assinatura" then dictUpdate idx (docSetAssinatura parsed) store
      else if prop = "src" then dictUpdate idx (docSetSrc st parsed) store
      else dictUpdate idx (docSetHtml st parsed) store
    | Option.none => store
  else store

/-- Third-pass state: the node store, the optional `Processo` being
enriched, and the accumulated `processo_assinantes`. -/
structure AcaoState where
  store : List (Nat × Documento)
  processo : Option Processo
  processo_assinantes : List String
deriving Repr, DecidableEq, Inhabited

/-- Effect of a signature action on its target node
(`documents.py` lines 324–330). -/
def docAcaoAssinatura (alerta : String) (nomes : List String) (doc : Documento) : Documento :=
  let doc :=
    if alerta ≠ "" then
      { doc with metadados := dictSetdefault "assinatura_alerta" (pystrTerm alerta) doc.metadados }
    else doc
  if nomes ≠ [] then
    { doc with possui_assinaturas := true
               assinantes := nomes.foldl append_unique doc.assinantes }
  else doc

/-- Effect of an access-level action on its target node
(`documents.py` lines 340–345). -/
def docAcaoNivelAcesso (alerta : String) (icon : Option String) (doc : Documento) : Documento :=
  let doc := { doc with eh_sigiloso := true }
  let doc :=
    match truthy icon with
    | some i => { doc with metadados := metaAppendStr "acoes_icones" i doc.metadados }
    | Option.none => doc
  if alerta ≠ "" then
    { doc with metadados := dictSetdefault "nivel_acesso" (pystrTerm alerta) doc.metadados }
  else doc

/-- Effect of any other action on its target node (`documents.py` lines 352–353). -/
def docAcaoOutra (icon : String) (doc : Documento) : Documento :=
  { doc with metadados := metaAppendStr "acoes_icones" icon doc.metadados }

/-- Third pass, one action declaration (`documents.py` lines 307–353). -/
def applyAcao (ids : List (String × Nat)) (state : AcaoState)
    (a : Nat × String) : AcaoState :=
  let args := parse_infra_args a.2
  if args = [] then state
  else
    let arg := fun i => args.getD i (PyTerm.scalar PyVal.pynone)
    let tipo_acao := asciiUpper (strOrD (as_optional_str (arg 0)) "")
    let alvo_id := if 2 < args.length then as_optional_str (arg 2) else Option.none
    let js_code := if 3 < args.length then as_optional_str (arg 3) else Option.none
    let label := if 5 < args.length then as_optional_str (arg 5) else Option.none
    let icon := if 6 < args.length then as_optional_str (arg 6) else Option.none
    let alvoSlot := dictGet? (strOrD alvo_id "") ids
    if tipo_acao = "ASSINATURA" then
      let alerta := strOrD (extract_alert_text js_code) (strOrD label "")
      let nomes := extract_assinatura_nomes alerta
      match alvoSlot with
      | some slot =>
        { state with store := dictUpdate slot (docAcaoAssinatura alerta nomes) state.store }
      | Option.none =>
        match state.processo, truthy alvo_id with
        | some proc, some aid =>
          if aid = proc.id_procedimento then
            let proc :=
              if alerta ≠ "" then
                { proc with metadados := metaAppendStr "assinatura_alertas" alerta proc.metadados }
              else proc
            { state with processo := some proc
                         processo_assinantes := nomes.foldl append_unique state.processo_assinantes }
          else state
        | _, _ => state
    else if tipo_acao = "NIVEL_ACESSO" then
      let alerta := strOrD (extract_alert_text js_code) (strOrD label "")
      match alvoSlot with
      | some slot =>
        { state with store := dictUpdate slot (docAcaoNivelAcesso alerta icon) state.store }
      | Option.none =>
        match state.processo, truthy alvo_id with
        | some proc, some aid =>
          if aid = proc.id_procedimento then
            let proc := { proc with eh_sigiloso := true }
            let proc :=
              if alerta ≠ "" then
                { proc with metadados := dictSetdefault "nivel_acesso" (pystrTerm alerta) proc.metadados }
              else proc
            { state with processo := some proc }
          else state
        | _, _ => state
    else
      match alvoSlot, truthy icon with
      | some slot, some i =>
        { state with store := dictUpdate slot (docAcaoOutra i) state.store }
      | _, _ => state

/-- Final ordering (`documents.py` line 358): nodes in ascending slot order. -/
def sortedDocs (store : List (Nat × Documento)) : List Documento :=
  (List.insertionSort (· ≤ ·) (store.map Prod.fst)).filterMap (fun i => dictGet? i store)

/-- `parse_documentos_do_iframe` (`documents.py` lines 183–364) over the
abstracted match streams.  Returns the ordered document list and the
(possibly enriched) `Processo`. -/
def parse_documentos_do_iframe (st : Settings) (decls : List (Nat × String))
    (assigns : List (Nat × String × String)) (acoes : List (Nat × String))
    (processo : Option Processo) : List Documento × Option Processo :=
  let store1 := buildNodes st decls
  if store1 = [] then ([], processo)
  else
    let ids := buildIds store1
    let store2 := assigns.foldl (applyAssign st) store1
    let final := acoes.foldl (applyAcao ids) ⟨store2, processo, []⟩
    let proc :=
      match final.processo with
      | some p =>
        if final.processo_assinantes ≠ [] then
          some { p with assinantes := final.processo_assinantes }
        else some p
      | Option.none => Option.none
    (sortedDocs final.store, proc)

/-! ### Pagination metadata (`processes.py` lines 196–272). -/

/-- `models.PaginationInfo`. -/
structure PaginationInfo where
  total_registros : Int
  pagina_atual : Int
  total_paginas : Int
  itens_por_pagina : Int
deriving Repr, DecidableEq, Inhabited

/-- Leftmost match of `(\d+)\s+registros`: the digit run, at its earliest
start, followed by at least one whitespace and the literal. -/
def captionTotal : List Char → Option Nat
  | [] => Option.none
  | c :: rest =>
    if c.isDigit then
      let ds := (digitRun (c :: rest)).1
      let r1 := (digitRun (c :: rest)).2
      if r1.takeWhile isPyWS ≠ [] ∧ "registros".data.isPrefixOf (r1.dropWhile isPyWS) then
        some (natOfDigits ds)
      else captionTotal rest
    else captionTotal rest

/-- Leftmost match of `-\s*(\d+)\s*a\s*(\d+)`: the displayed row range. -/
def captionRange : List Char → Option (Nat × Nat)
  | [] => Option.none
  | c :: rest =>
    if c = '-' then
      let r1 := skipWS rest
      let ds1 := (digitRun r1).1
      let r2 := (digitRun r1).2
      if ds1 = [] then captionRange rest
      else
        let r3 := skipWS r2
        match r3.head? with
        | some ch =>
          if ch = 'a' then
            let r4 := skipWS (r3.drop 1)
            let ds2 := (digitRun r4).1
            if ds2 = [] then captionRange rest
            else some (natOfDigits ds1, natOfDigits ds2)
          else captionRange rest
        | Option.none => captionRange rest
    else captionRange rest

/-- `_parse_caption_info` (`processes.py` lines 196–214): total records and
items per page from the caption text. -/
def parse_caption_info (texto : String) : Int × Int :=
  let total_registros : Int :=
    match captionTotal texto.data with
    | some n => n
    | Option.none => 0
  let itens : Int :=
    match captionRange texto.data with
    | some p => max 0 ((p.2 : Int) - (p.1 : Int) + 1)
    | Option.none => 0
  let itens := if itens = 0 ∧ total_registros ≠ 0 then total_registros else itens
  (total_registros, itens)

/-- Python `int(s)` on a hidden-field value (optional sign and digits). -/
def pyToInt (s : String) : Option Int :=
  let cs := stripChars s.data
  match cs with
  | [] => Option.none
  | c :: rest =>
    if c = '-' ∨ c = '+' then
      if rest ≠ [] ∧ rest.all Char.isDigit then
        some (if c = '-' then -(natOfDigits rest : Int) else (natOfDigits rest : Int))
      else Option.none
    else if (c :: rest).all Char.isDigit then some (natOfDigits (c :: rest))
    else Option.none

/-- The parts of one listing table `obter_paginacao_info` reads: presence of
the table, its caption text, the `tr[id^='P']` row count, and the three
hidden fields (`hdn…NroItens`, `hdn…Itens`, `hdn…PaginaAtual`); a missing
element is `Option.none`. -/
structure GrupoPagina where
  tabela_presente : Bool := true
  caption : Option String := Option.none
  num_linhas : Nat := 0
  hdn_nro_itens : Option String := Option.none
  hdn_itens : Option String := Option.none
  hdn_pagina_atual : Option String := Option.none
deriving Repr, DecidableEq, Inhabited

/-- The caption/row-count part of `obter_paginacao_info`
(`processes.py` lines 227–235): `(total_registros, itens_por_pagina)`
before the hidden-field fallbacks. -/
def paginacaoDaTabela (g : GrupoPagina) : Int × Int :=
  if g.tabela_presente then
    let ti : Int × Int :=
      match g.caption with
      | some txt => parse_caption_info txt
      | Option.none => ((0 : Int), (0 : Int))
    let i1 : Int := if ti.2 ≤ 0 ∧ 0 < g.num_linhas then (g.num_linhas : Int) else ti.2
    let t1 : Int := if ti.1 ≤ 0 ∧ 0 < g.num_linhas then (g.num_linhas : Int) else ti.1
    (t1, i1)
  else ((0 : Int), (0 : Int))

/-- The hidden-field fallbacks of `obter_paginacao_info`
(`processes.py` lines 237–259): `(total_registros, itens_por_pagina,
pagina_atual)` before the final clamps. -/
def paginacaoBruta (g : GrupoPagina) : Int × Int × Int :=
  let tr := (paginacaoDaTabela g).1
  let ipp := (paginacaoDaTabela g).2
  let ipp :=
    match truthy g.hdn_nro_itens with
    | some v =>
      (match pyToInt v with
        | some nro => if ipp ≤ 0 then nro else ipp
        | Option.none => ipp)
    | Option.none => ipp
  let tr :=
    match truthy g.hdn_itens with
    | some v => if tr ≤ 0 then (((strSplitOn v ",").filter (· ≠ "")).length : Int) else tr
    | Option.none => tr
  let pagina_atual : Int :=
    match truthy g.hdn_pagina_atual with
    | some v =>
      (match pyToInt v with
        | some n => n
        | Option.none => 0)
    | Option.none => 0
  (tr, ipp, pagina_atual)

/-- `obter_paginacao_info` for one category (`processes.py` lines 222–270):
the final items-per-page clamp and the total-page count
`max(1, ceil(total / ipp))` (exact ceiling division, `(a + b - 1) / b`). -/
def paginacao_do_grupo (g : GrupoPagina) : PaginationInfo :=
  let tr := (paginacaoBruta g).1
  let ipp := (paginacaoBruta g).2.1
  let ipp := if ipp ≤ 0 then max 1 (if tr ≠ 0 then tr else 1) else ipp
  let total_paginas := if ipp ≠ 0 then max 1 ((tr + ipp - 1) / ipp) else 1
  { total_registros := tr
    pagina_atual := (paginacaoBruta g).2.2
    total_paginas := total_paginas
    itens_por_pagina := ipp }

/-- `obter_paginacao_info` (`processes.py` lines 217–272), both categories. -/
def obter_paginacao_info (recebidos gerados : GrupoPagina) :
    List (String × PaginationInfo) :=
  [("Recebidos", paginacao_do_grupo recebidos), ("Gerados", paginacao_do_grupo gerados)]

/-- The display name of a category. -/
def grupoNome : Categoria → String
  | Categoria.Recebidos => "Recebidos"
  | Categoria.Gerados => "Gerados"

/-- The form-data override of `submeter_paginacao` (`processes.py`
lines 289–303): the serialized form with the two page selectors (when
present) and the hidden current-page field set to the target page; a missing
hidden field is the fatal condition. -/
def submeter_paginacao_data (grupo : Categoria) (pagina_destino : Int)
    (data : List (String × String)) : Except String (List (String × String)) :=
  let alvo := toString pagina_destino
  let sup := "sel" ++ grupoNome grupo ++ "PaginacaoSuperior"
  let inf := "sel" ++ grupoNome grupo ++ "PaginacaoInferior"
  let hid := "hdn" ++ grupoNome grupo ++ "PaginaAtual"
  let data := if dictContains sup data then dictInsert sup alvo data else data
  let data := if dictContains inf data then dictInsert inf alvo data else data
  if dictContains hid data then Except.ok (dictInsert hid alvo data)
  else Except.error ("Paginação indisponível para " ++ grupoNome grupo ++ ".")

/-! ### Listing extraction and pagination loop (`processes.py`). -/

/-- One row of the accumulation loop of `extrair_processos` (`processes.py`
lines 169–173): the row is abstracted as the `Option Processo` that
`extrair_processo_da_linha` produces for it; a produced record with a fresh
non-empty identifier is appended and its identifier marked seen. -/
def adicionarLinhaStep (st : List Processo × List String)
    (l : Option Processo) : List Processo × List String :=
  match l with
  | some proc =>
    if proc.id_procedimento ≠ "" ∧ ¬ st.2.contains proc.id_procedimento then
      (st.1 ++ [proc], st.2 ++ [proc.id_procedimento])
    else st
  | Option.none => st

/-- The accumulation loop of `extrair_processos` over one table
(`processes.py` lines 168–182). -/
def adicionarLinhas (acc : List Processo × List String)
    (linhas : List (Option Processo)) : List Processo × List String :=
  linhas.foldl adicionarLinhaStep acc

/-- `extrair_processos` (`processes.py` lines 159–193): the "Recebidos"
table first, then "Gerados", deduplicated by server identifier (an absent
table is an empty row list). -/
def extrair_processos (linhas_recebidos linhas_gerados : List (Option Processo)) :
    List Processo :=
  (adicionarLinhas (adicionarLinhas ([], []) linhas_recebidos) linhas_gerados).1

/-- `models.PaginationOptions`. -/
structure PaginationOptions where
  max_paginas_recebidos : Option Int := Option.none
  max_paginas_gerados : Option Int := Option.none
  max_paginas_total : Option Int := Option.none
deriving Repr, DecidableEq, Inhabited

/-- Python truthiness of an optional int (`None` and `0` are falsy). -/
def truthyInt : Option Int → Option Int
  | some n => if n = 0 then Option.none else some n
  | Option.none => Option.none

/-- The `limites` list built by `PaginationOptions.limite_para`
(`models.py` lines 82–88): the truthy overall ceiling, then the truthy
ceiling of the requested category. -/
def limitesConfigurados (o : PaginationOptions) (grupo : Categoria) : List Int :=
  (match truthyInt o.max_paginas_total with
    | some n => [n]
    | Option.none => []) ++
  (if grupo = Categoria.Recebidos then
    match truthyInt o.max_paginas_recebidos with
    | some n => [n]
    | Option.none => []
  else []) ++
  (if grupo = Categoria.Gerados then
    match truthyInt o.max_paginas_gerados with
    | some n => [n]
    | Option.none => []
  else [])

/-- `PaginationOptions.limite_para` (`models.py` lines 80–94). -/
def PaginationOptions.limite_para (o : PaginationOptions) (grupo : Categoria)
    (total_paginas : Int) : Int :=
  match limitesConfigurados o grupo with
  | [] => total_paginas
  | l :: ls =>
    let limite := ls.foldl min l
    if limite < 1 then 1 else min total_paginas limite

/-- Pages processed for one category by `coletar_processos_com_paginacao`
(`processes.py` lines 342–358): the initial page plus one page per element
of `range(pagina_atual + 1, limite)`. -/
def paginasVisitadas (pagina_atual limite : Int) : Nat :=
  1 + (limite - (pagina_atual + 1)).toNat

/-! ### Form serialization (`dom.py`). -/

/-- An `<input>` element: name, raw `type` attribute, `value` attribute
(absent modelled as its `""` default), checked flag. -/
structure InputEl where
  name : Option String := Option.none
  itype : Option String := Option.none
  value : String := ""
  checked : Bool := false
deriving Repr, DecidableEq, Inhabited

/-- An `<option>` element of a select. -/
structure SelectOption where
  value : String := ""
  selected : Bool := false
deriving Repr, DecidableEq, Inhabited

/-- A `<select>` element. -/
structure SelectEl where
  name : Option String := Option.none
  options : List SelectOption := []
deriving Repr, DecidableEq, Inhabited

/-- A `<textarea>` element. -/
structure TextareaEl where
  name : Option String := Option.none
  text : String := ""
deriving Repr, DecidableEq, Inhabited

/-- A form, as the element lists the serializers traverse (document order). -/
structure Form where
  inputs : List InputEl := []
  selects : List SelectEl := []
  textareas : List TextareaEl := []
deriving Repr, DecidableEq, Inhabited

/-- One input of `serializar_inputs` (`dom.py` lines 13–26): a named input
contributes its value, except a radio/checkbox, which contributes only when
checked (the type attribute is lower-cased first). -/
def serializarInputsStep (data : List (String × String)) (inp : InputEl) :
    List (String × String) :=
  match inp.name with
  | some n =>
    if n = "" then data
    else
      let itype := asciiLower (inp.itype.getD "")
      if itype = "radio" ∨ itype = "checkbox" then
        if inp.checked then dictInsert n inp.value data else data
      else dictInsert n inp.value data
  | Option.none => data

/-- `serializar_inputs` (`dom.py` lines 10–27). -/
def serializar_inputs (inputs : List InputEl) : List (String × String) :=
  inputs.foldl serializarInputsStep []

/-- `serializar_selects` (`dom.py` lines 30–44). -/
def serializar_selects (selects : List SelectEl) : List (String × String) :=
  selects.foldl (fun data sel =>
    match sel.name with
    | some n =>
      if n = "" then data
      else
        match (sel.options.find? (·.selected)).orElse (fun _ => sel.options.head?) with
        | some opt => dictInsert n opt.value data
        | Option.none => dictInsert n "" data
    | Option.none => data) []

/-- `serializar_textareas` (`dom.py` lines 47–57). -/
def serializar_textareas (textareas : List TextareaEl) : List (String × String) :=
  textareas.foldl (fun data ta =>
    match ta.name with
    | some n => if n = "" then data else dictInsert n (pyStrip ta.text) data
    | Option.none => data) []

/-- One input of `radios_by_name` (`dom.py` lines 63–69): a named input
whose raw `type` attribute is exactly `"radio"` joins its name group. -/
def radiosGroupStep (acc : List (String × List InputEl)) (r : InputEl) :
    List (String × List InputEl) :=
  if r.itype = some "radio" then
    match r.name with
    | some n =>
      if n = "" then acc
      else if dictContains n acc then dictUpdate n (· ++ [r]) acc
      else acc ++ [(n, [r])]
    | Option.none => acc
  else acc

/-- `radios_by_name` (`dom.py` lines 62–69): radio inputs grouped by name
in first-seen order. -/
def radiosPorNome (inputs : List InputEl) : List (String × List InputEl) :=
  inputs.foldl radiosGroupStep []

/-- One radio group of `processar_radios_nao_marcados` (`dom.py`
lines 70–72): a group with no entry yet receives its first radio's value. -/
def processarRadiosStep (d : List (String × String))
    (g : String × List InputEl) : List (String × String) :=
  match g.2 with
  | r :: _ => if ¬ dictContains g.1 d then dictInsert g.1 r.value d else d
  | [] => d

/-- `processar_radios_nao_marcados` (`dom.py` lines 60–73). -/
def processar_radios_nao_marcados (inputs : List InputEl)
    (data : List (String × String)) : List (String × String) :=
  (radiosPorNome inputs).foldl processarRadiosStep data

/-- `dict.update` over every pair of `updates`, in order. -/
def dictUpdateAll (base updates : List (String × String)) : List (String × String) :=
  updates.foldl (fun d kv => dictInsert kv.1 kv.2 d) base

/-- `serializar_formulario` (`dom.py` lines 76–82). -/
def serializar_formulario (form : Form) : List (String × String) :=
  let data := dictUpdateAll [] (serializar_inputs form.inputs)
  let data := dictUpdateAll data (serializar_selects form.selects)
  let data := dictUpdateAll data (serializar_textareas form.textareas)
  processar_radios_nao_marcados form.inputs data

/-! ### PDF retry loop and batch (`pdf.py`). -/

/-- The options `baixar_pdfs_em_lote` reads in sequential mode
(`models.PDFDownloadOptions`). -/
structure PDFDownloadOptions where
  limite_processos : Option Int := Option.none
  tentativas : Nat := 3
deriving Repr, DecidableEq, Inhabited

/-- `models.PDFDownloadResult` (the output path abstracted as a string;
elapsed time is outside the embedding). -/
structure PDFDownloadResult where
  processo : Processo
  sucesso : Bool
  caminho : Option String := Option.none
  erro : Option String := Option.none
  tentativas : Nat := 0
deriving Repr, DecidableEq, Inhabited

/-- The retry loop of `baixar_pdf_processo` (`pdf.py` lines 283–321).
`attempt t` abstracts the body of attempt number `t` (open the record,
locate the frame and the generate link, submit, download); a raised
`SEIProcessoError`/`SEIPDFError`/`Exception` is `Except.error`.  Returns
`(tentativas_realizadas, destino, erro)`. -/
def baixarAux (attempt : Nat → Except String String) (t : Nat) :
    Nat → Nat × Option String × Option String
  | 0 => (0, Option.none, Option.none)
  | restantes + 1 =>
    match attempt t with
    | Except.ok destino => (t, some destino, Option.none)
    | Except.error e =>
      if restantes = 0 then (t, Option.none, some e)
      else baixarAux attempt (t + 1) restantes

/-- `baixar_pdf_processo` (`pdf.py` lines 261–335): run up to `tentativas`
attempts; success when a destination was produced and the last error was
cleared. -/
def baixar_pdf_processo (p : Processo) (attempt : Nat → Except String String)
    (tentativas : Nat) : PDFDownloadResult :=
  let r := baixarAux attempt 1 tentativas
  { processo := p
    sucesso := r.2.1.isSome && r.2.2.isNone
    caminho := r.2.1
    erro := r.2.2
    tentativas := r.1 }

/-- `baixar_pdfs_em_lote` (`pdf.py` lines 338–395), sequential mode: apply
the per-record flow to each target record independently, collecting one
result per record. -/
def baixar_pdfs_em_lote (processos : List Processo)
    (attempt : Processo → Nat → Except String String)
    (options : PDFDownloadOptions) : List PDFDownloadResult :=
  if processos = [] then []
  else
    let alvo :=
      match options.limite_processos with
      | some l => if 0 < l then processos.take l.toNat else processos
      | Option.none => processos
    alvo.map (fun p => baixar_pdf_processo p (attempt p) options.tentativas)

/-! ### Specification helpers used by the theorems. -/

/-- The declaration slot recorded in a node's `ordem` metadatum. -/
def ordemDo (doc : Documento) : Option Int :=
  match dictGet? "ordem" doc.metadados with
  | some (PyTerm.scalar (PyVal.pyint n)) => some n
  | _ => Option.none

/-- Every node of the store carries its own slot index in `ordem`. -/
def OrdemCoerente (store : List (Nat × Documento)) : Prop :=
  ∀ i doc, dictGet? i store = some doc →
    dictGet? "ordem" doc.metadados = some (PyTerm.scalar (PyVal.pyint (i : Int)))

/-- The rows of the listing tables that produce a `Processo` with a
non-empty server identifier, in scan order. -/
def linhasValidas (rows : List (Option Processo)) : List Processo :=
  rows.filterMap (fun op =>
    match op with
    | some p => if p.id_procedimento ≠ "" then some p else Option.none
    | Option.none => Option.none)

/-- Whether an input element contributes an entry named `n` to the
serialized map of `serializar_inputs`: it carries that (non-empty) name,
and a radio/checkbox contributes only when checked. -/
def contribuiNome (inp : InputEl) (n : String) : Prop :=
  inp.name = some n ∧ n ≠ "" ∧
    ((asciiLower (inp.itype.getD "") = "radio" ∨
      asciiLower (inp.itype.getD "") = "checkbox") → inp.checked = true)

/-- The first radio input named `n`, in document order — the element whose
value `processar_radios_nao_marcados` injects for an unfilled group
(`radios[0]` in `dom.py` line 71; the grouping pass matches the `type`
attribute exactly, as its `find_all` filter does). -/
def primeiroRadio (inputs : List InputEl) (n : String) : Option InputEl :=
  inputs.find? (fun r =>
    decide (r.itype = some "radio") && decide (r.name = some n))

/-! ### Concrete fixtures (the shapes of the repository's own test data,
with double-quoted script literals). -/

/-- Test settings. -/
def stgFix : Settings := { base_url := "https://www.sei.example" }

/-- Argument text of a retained document declaration (slot 0). -/
def declDoc1 : String :=
  "\"DOCUMENTO\",\"DOC-001\",\"ROOT\",\"/sei/controlador.php?acao=documento_visualizar&id_documento=DOC-001&infra_hash=hash001\",\"ifrVisualizar\",\"\",\"Oficio de Teste (0001)\",\"/sei/img/documento_pdf.svg\",\"\",\"\",\"\",\"\",\"\",\"\",\"noVisitado\",\"0001\""

/-- Argument text of a second retained document declaration (slot 1). -/
def declDoc2 : String :=
  "\"DOCUMENTO\",\"DOC-002\",\"ROOT\",\"/sei/controlador.php?acao=documento_visualizar&id_documento=DOC-002&infra_hash=hash002\",\"ifrVisualizar\",\"\",\"Anexo Plano (0002)\",\"/sei/img/documento_pdf.svg\",\"\",\"\",\"\",\"\",\"\",\"\",\"\",\"0002\""

/-- Argument text of an excluded declaration (only two decoded fields). -/
def declCurta : String := "\"DOCUMENTO\",\"DOC-003\""

/-- Argument text of an excluded declaration (non-document type tag). -/
def declPasta : String :=
  "\"PASTA\",\"P-01\",\"ROOT\",\"\",\"\",\"\",\"Pasta 1\",\"\""

/-- Raw value of a `src` property mutation for slot 0. -/
def srcDoc1 : String :=
  "\"/sei/controlador.php?acao=documento_download_anexo&id_anexo=ANX-001\""

/-- Argument text of a signature action targeting the node `DOC-001`. -/
def acaoAssinaturaDoc : String :=
  "\"ASSINATURA\",\"IGN\",\"DOC-001\",\"alert(\\\"Assinado por\\nFulano de Tal\\\")\",null,null,null"

/-- Argument text of a signature action targeting the record identifier. -/
def acaoAssinaturaProc : String :=
  "\"ASSINATURA\",\"IGN\",\"PROC-001\",\"alert(\\\"Assinado por\\nFulano de Tal\\\")\",null,null,null"

/-- A record being enriched. -/
def procFix : Processo :=
  { numero_processo := "0001/2025"
    id_procedimento := "PROC-001"
    url := "https://example/processo"
    visualizado := false
    categoria := Categoria.Recebidos }

/-- A serialized control form with both page selectors and the hidden
current-page field for "Recebidos". -/
def dataFix : List (String × String) :=
  [("selRecebidosPaginacaoSuperior", "0"), ("selRecebidosPaginacaoInferior", "0"),
   ("hdnRecebidosPaginaAtual", "0"), ("hdnInfraCampos", "x"), ("txtUnidade", "SEDE")]

/-- The caption fixture of the pagination claim. -/
def captionFix : String := "... - 1 a 20 de 45 registros"

/-- A listing table exposing only the fixture caption. -/
def gFix : GrupoPagina := { caption := some captionFix }

/-- A form with a text input, an unchecked two-radio group and an
unchecked checkbox. -/
def inputsFix : List InputEl :=
  [{ name := some "a", itype := some "text", value := "1" },
    { name := some "r", itype := some "radio", value := "x" },
    { name := some "r", itype := some "radio", value := "y" },
    { name := some "c", itype := some "checkbox", value := "z" }]

/-- A listing record with identifier 10. -/
def procA : Processo :=
  { numero_processo := "0010/2025", id_procedimento := "10",
    url := "https://example/10", visualizado := false,
    categoria := Categoria.Recebidos }

/-- A listing record with identifier 20. -/
def procB : Processo :=
  { numero_processo := "0020/2025", id_procedimento := "20",
    url := "https://example/20", visualizado := true,
    categoria := Categoria.Recebidos }

/-- A "Gerados" record repeating identifier 10. -/
def procA2 : Processo :=
  { numero_processo := "0011/2025", id_procedimento := "10",
    url := "https://example/11", visualizado := false,
    categoria := Categoria.Gerados }

/-- Rows of the "Recebidos" table (one unparseable row). -/
def rowsRecFix : List (Option Processo) := [some procA, Option.none, some procB]

/-- Rows of the "Gerados" table (a duplicate of identifier 10). -/
def rowsGerFix : List (Option Processo) := [some procA2]

/-- A control form carrying the "Recebidos" pagination fields. -/
def formFix : Form :=
  { inputs :=
      [{ name := some "selRecebidosPaginacaoSuperior", itype := some "hidden", value := "0" },
        { name := some "selRecebidosPaginacaoInferior", itype := some "hidden", value := "0" },
        { name := some "hdnRecebidosPaginaAtual", itype := some "hidden", value := "0" },
        { name := some "txtUnidade", itype := some "text", value := "SEDE" }] }

/-- A declaration stream with two retained and one excluded declaration. -/
def fixDecls : List (Nat × String) := [(0, declDoc1), (1, declDoc2), (2, declCurta)]

/-! ## Lemmas

### Association-list dictionaries. -/

theorem dictGet?_insert {α β : Type} [DecidableEq α] (k k' : α) (v : β)
    (st : List (α × β)) :
    dictGet? k' (dictInsert k v st) = if k = k' then some v else dictGet? k' st := by
  induction st with
  | nil =>
    by_cases h : k = k' <;> simp [dictInsert, dictGet?, h]
  | cons hd tl ih =>
    obtain ⟨k0, v0⟩ := hd
    by_cases h1 : k0 = k
    · subst h1
      by_cases h2 : k0 = k'
      · subst h2; simp [dictInsert, dictGet?]
      · simp [dictInsert, dictGet?, h2]
    · by_cases h2 : k0 = k'
      · subst h2
        simp [dictInsert, dictGet?, h1, Ne.symm h1]
      · simp [dictInsert, dictGet?, h1, h2, ih]

theorem dictGet?_update {α β : Type} [DecidableEq α] (k k' : α) (f : β → β)
    (st : List (α × β)) :
    dictGet? k' (dictUpdate k f st) =
      if k = k' then (dictGet? k' st).map f else dictGet? k' st := by
  induction st with
  | nil =>
    by_cases h : k = k' <;> simp [dictUpdate, dictGet?, h]
  | cons hd tl ih =>
    obtain ⟨k0, v0⟩ := hd
    by_cases h1 : k0 = k
    · subst h1
      by_cases h2 : k0 = k'
      · subst h2; simp [dictUpdate, dictGet?]
      · simp [dictUpdate, dictGet?, h2]
    · by_cases h2 : k0 = k'
      · subst h2
        simp [dictUpdate, dictGet?, h1, Ne.symm h1]
      · simp [dictUpdate, dictGet?, h1, h2, ih]

theorem mem_keys_insert {α β : Type} [DecidableEq α] (k k' : α) (v : β)
    (st : List (α × β)) :
    k' ∈ (dictInsert k v st).map Prod.fst ↔ k' = k ∨ k' ∈ st.map Prod.fst := by
  induction st with
  | nil => simp [dictInsert]
  | cons hd tl ih =>
    obtain ⟨k0, v0⟩ := hd
    by_cases h1 : k0 = k
    · subst h1
      rw [dictInsert, if_pos rfl]
      constructor
      · intro hm
        rw [List.map_cons, List.mem_cons] at hm
        rcases hm with hm | hm
        · exact Or.inl hm
        · exact Or.inr (by rw [List.map_cons, List.mem_cons]; exact Or.inr hm)
      · intro hm
        rw [List.map_cons, List.mem_cons]
        rcases hm with hm | hm
        · exact Or.inl hm
        · rw [List.map_cons, List.mem_cons] at hm
          rcases hm with hm | hm
          · exact Or.inl hm
          · exact Or.inr hm
    · rw [dictInsert, if_neg h1]
      constructor
      · intro hm
        rw [List.map_cons, List.mem_cons] at hm
        rcases hm with hm | hm
        · exact Or.inr (by rw [List.map_cons, List.mem_cons]; exact Or.inl hm)
        · rcases ih.mp hm with h | h
          · exact Or.inl h
          · exact Or.inr (by rw [List.map_cons, List.mem_cons]; exact Or.inr h)
      · intro hm
        rw [List.map_cons, List.mem_cons]
        rcases hm with hm | hm
        · exact Or.inr (ih.mpr (Or.inl hm))
        · rw [List.map_cons, List.mem_cons] at hm
          rcases hm with hm | hm
          · exact Or.inl hm
          · exact Or.inr (ih.mpr (Or.inr hm))

theorem keys_update {α β : Type} [DecidableEq α] (k : α) (f : β → β)
    (st : List (α × β)) :
    (dictUpdate k f st).map Prod.fst = st.map Prod.fst := by
  induction st with
  | nil => simp [dictUpdate]
  | cons hd tl ih =>
    obtain ⟨k0, v0⟩ := hd
    by_cases h1 : k0 = k <;> simp [dictUpdate, h1, ih]

theorem dictGet?_eq_none_iff {α β : Type} [DecidableEq α] (k : α)
    (st : List (α × β)) :
    dictGet? k st = Option.none ↔ k ∉ st.map Prod.fst := by
  induction st with
  | nil => simp [dictGet?]
  | cons hd tl ih =>
    obtain ⟨k0, v0⟩ := hd
    by_cases h1 : k0 = k
    · subst h1; simp [dictGet?]
    · rw [dictGet?, if_neg h1, List.map_cons, List.mem_cons, ih]
      constructor
      · rintro hn (h | h)
        · exact h1 h.symm
        · exact hn h
      · intro hn h
        exact hn (Or.inr h)

theorem dictGet?_isSome_iff {α β : Type} [DecidableEq α] (k : α)
    (st : List (α × β)) :
    (dictGet? k st).isSome = true ↔ k ∈ st.map Prod.fst := by
  rw [Option.isSome_iff_ne_none]
  constructor
  · intro hne
    by_contra hmem
    exact hne ((dictGet?_eq_none_iff k st).mpr hmem)
  · intro hmem hnone
    exact absurd hmem ((dictGet?_eq_none_iff k st).mp hnone)

theorem dictContains_iff {α β : Type} [DecidableEq α] (k : α)
    (st : List (α × β)) :
    dictContains k st = true ↔ k ∈ st.map Prod.fst := by
  simpa only [dictContains] using dictGet?_isSome_iff k st

theorem keys_insert_of_contains {α β : Type} [DecidableEq α] (k : α) (v : β)
    (st : List (α × β)) :
    k ∈ st.map Prod.fst →
      (dictInsert k v st).map Prod.fst = st.map Prod.fst := by
  induction st with
  | nil => intro h; simp at h
  | cons hd tl ih =>
    obtain ⟨k0, v0⟩ := hd
    intro h
    rw [List.map_cons, List.mem_cons] at h
    by_cases h1 : k0 = k
    · subst h1; simp [dictInsert]
    · have hk : k ∈ tl.map Prod.fst := by
        rcases h with h | h
        · exact absurd h.symm h1
        · exact h
      simp [dictInsert, h1, ih hk]

theorem keys_insert_of_not_contains {α β : Type} [DecidableEq α] (k : α) (v : β)
    (st : List (α × β)) :
    k ∉ st.map Prod.fst →
      (dictInsert k v st).map Prod.fst = st.map Prod.fst ++ [k] := by
  induction st with
  | nil => intro _; simp [dictInsert]
  | cons hd tl ih =>
    obtain ⟨k0, v0⟩ := hd
    intro h
    rw [List.map_cons, List.mem_cons] at h
    push_neg at h
    by_cases h1 : k0 = k
    · exact absurd h1.symm h.1
    · simp [dictInsert, h1, ih h.2]

theorem length_insert_of_not_contains {α β : Type} [DecidableEq α] (k : α) (v : β)
    (st : List (α × β)) (h : k ∉ st.map Prod.fst) :
    (dictInsert k v st).length = st.length + 1 := by
  have hlen := congrArg List.length (keys_insert_of_not_contains k v st h)
  simpa using hlen

theorem length_insert_of_contains {α β : Type} [DecidableEq α] (k : α) (v : β)
    (st : List (α × β)) (h : k ∈ st.map Prod.fst) :
    (dictInsert k v st).length = st.length := by
  have hlen := congrArg List.length (keys_insert_of_contains k v st h)
  simpa using hlen

theorem nodup_keys_insert {α β : Type} [DecidableEq α] (k : α) (v : β)
    (st : List (α × β)) (h : (st.map Prod.fst).Nodup) :
    ((dictInsert k v st).map Prod.fst).Nodup := by
  by_cases hc : k ∈ st.map Prod.fst
  · rw [keys_insert_of_contains k v st hc]; exact h
  · rw [keys_insert_of_not_contains k v st hc]
    refine List.Nodup.append h (List.nodup_singleton k) ?_
    intro a ha hb
    rw [List.mem_singleton] at hb
    subst hb
    exact hc ha

/-- A fold preserves any invariant its step preserves. -/
theorem foldl_preserve {α β : Type} (P : α → Prop) (f : α → β → α)
    (h : ∀ a b, P a → P (f a b)) : ∀ (l : List β) (a : α), P a → P (l.foldl f a) := by
  intro l
  induction l with
  | nil => intro a ha; simpa using ha
  | cons hd tl ih => intro a ha; exact ih (f a hd) (h a hd ha)

/-! ### Document-tree parser lemmas. -/

theorem dictGet?_setdefault_ne {α β : Type} [DecidableEq α] (k k' : α) (v : β)
    (st : List (α × β)) (h : k ≠ k') :
    dictGet? k' (dictSetdefault k v st) = dictGet? k' st := by
  unfold dictSetdefault
  split
  · rfl
  · rw [dictGet?_insert]
    simp [h]

theorem dictGet?_metaAppendStr_ne (k : String) (x : String)
    (st : List (String × PyTerm)) (h : k ≠ "ordem") :
    dictGet? "ordem" (metaAppendStr k x st) = dictGet? "ordem" st := by
  unfold metaAppendStr
  rw [dictGet?_update]
  simp [h, dictGet?_setdefault_ne k "ordem" _ _ h]

theorem ordem_mkDocumento (st : Settings) (idx : Nat) (args : List PyTerm) :
    dictGet? "ordem" (mkDocumento st idx args).metadados =
      some (PyTerm.scalar (PyVal.pyint (idx : Int))) := by
  unfold mkDocumento
  rw [dictGet?_insert]
  simp

theorem ordem_docSetAssinatura (parsed : PyTerm) (doc : Documento) :
    dictGet? "ordem" (docSetAssinatura parsed doc).metadados =
      dictGet? "ordem" doc.metadados := by
  unfold docSetAssinatura
  cases parsed with
  | scalar v =>
    cases v with
    | pystr s => dsimp only; split_ifs <;> simp [dictGet?_insert]
    | pynone => rfl
    | pybool b => rfl
    | pyint n => rfl
  | list xs => rfl

theorem ordem_docSetSrc (st : Settings) (parsed : PyTerm) (doc : Documento) :
    dictGet? "ordem" (docSetSrc st parsed doc).metadados =
      dictGet? "ordem" doc.metadados := by
  unfold docSetSrc
  cases parsed with
  | scalar v =>
    cases v with
    | pystr s =>
      dsimp only
      split_ifs <;>
        simp [dictGet?_setdefault_ne "src_original" "ordem" _ _ (by decide)]
    | pynone => rfl
    | pybool b => rfl
    | pyint n => rfl
  | list xs => rfl

theorem ordem_docSetHtml (st : Settings) (parsed : PyTerm) (doc : Documento) :
    dictGet? "ordem" (docSetHtml st parsed doc).metadados =
      dictGet? "ordem" doc.metadados := by
  unfold docSetHtml
  cases parsed with
  | scalar v =>
    cases v with
    | pystr s =>
      dsimp only
      split_ifs <;> (try split) <;> simp [dictGet?_insert]
    | pynone => rfl
    | pybool b => rfl
    | pyint n => rfl
  | list xs => rfl

theorem ordem_docAcaoAssinatura (alerta : String) (nomes : List String)
    (doc : Documento) :
    dictGet? "ordem" (docAcaoAssinatura alerta nomes doc).metadados =
      dictGet? "ordem" doc.metadados := by
  unfold docAcaoAssinatura
  split_ifs <;>
    simp [dictGet?_setdefault_ne "assinatura_alerta" "ordem" _ _ (by decide)]

theorem ordem_docAcaoNivelAcesso (alerta : String) (icon : Option String)
    (doc : Documento) :
    dictGet? "ordem" (docAcaoNivelAcesso alerta icon doc).metadados =
      dictGet? "ordem" doc.metadados := by
  unfold docAcaoNivelAcesso
  split <;> split_ifs <;>
    simp [dictGet?_setdefault_ne "nivel_acesso" "ordem" _ _ (by decide),
      dictGet?_metaAppendStr_ne "acoes_icones" _ _ (by decide)]

theorem ordem_docAcaoOutra (icon : String) (doc : Documento) :
    dictGet? "ordem" (docAcaoOutra icon doc).metadados =
      dictGet? "ordem" doc.metadados := by
  unfold docAcaoOutra
  simp [dictGet?_metaAppendStr_ne "acoes_icones" _ _ (by decide)]

theorem ordem_update_preserve (store : List (Nat × Documento)) (slot : Nat)
    (f : Documento → Documento)
    (hf : ∀ doc, dictGet? "ordem" (f doc).metadados = dictGet? "ordem" doc.metadados)
    (h : OrdemCoerente store) : OrdemCoerente (dictUpdate slot f store) := by
  intro i doc hget
  rw [dictGet?_update] at hget
  by_cases hsi : slot = i
  · subst hsi
    rcases hmap : dictGet? slot store with _ | d
    · rw [hmap] at hget; simp at hget
    · rw [hmap] at hget
      simp at hget
      rw [← hget, hf d]
      exact h slot d hmap
  · rw [if_neg hsi] at hget
    exact h i doc hget

theorem keys_applyAssign (st : Settings) (store : List (Nat × Documento))
    (a : Nat × String × String) :
    (applyAssign st store a).map Prod.fst = store.map Prod.fst := by
  unfold applyAssign
  dsimp only
  split
  · split
    · split_ifs <;> apply keys_update
    · rfl
  · rfl

theorem ordem_applyAssign (st : Settings) (store : List (Nat × Documento))
    (a : Nat × String × String) (h : OrdemCoerente store) :
    OrdemCoerente (applyAssign st store a) := by
  unfold applyAssign
  dsimp only
  split
  · split
    · split_ifs
      · exact ordem_update_preserve _ _ _ (fun d => ordem_docSetAssinatura _ d) h
      · exact ordem_update_preserve _ _ _ (fun d => ordem_docSetSrc _ _ d) h
      · exact ordem_update_preserve _ _ _ (fun d => ordem_docSetHtml _ _ d) h
    · exact h
  · exact h

set_option maxHeartbeats 1000000 in
theorem keys_applyAcao (ids : List (String × Nat)) (state : AcaoState)
    (a : Nat × String) :
    (applyAcao ids state a).store.map Prod.fst = state.store.map Prod.fst := by
  unfold applyAcao
  dsimp only
  generalize parse_infra_args a.2 = args
  repeat' split
  all_goals simp [keys_update]

set_option maxHeartbeats 1000000 in
theorem ordem_applyAcao (ids : List (String × Nat)) (state : AcaoState)
    (a : Nat × String) (h : OrdemCoerente state.store) :
    OrdemCoerente (applyAcao ids state a).store := by
  unfold applyAcao
  dsimp only
  generalize parse_infra_args a.2 = args
  repeat' split
  all_goals
    first
    | exact h
    | exact ordem_update_preserve _ _ _ (fun d => ordem_docAcaoAssinatura _ _ d) h
    | exact ordem_update_preserve _ _ _ (fun d => ordem_docAcaoNivelAcesso _ _ d) h
    | exact ordem_update_preserve _ _ _ (fun d => ordem_docAcaoOutra _ d) h

theorem keys_foldl_applyAssign (st : Settings)
    (assigns : List (Nat × String × String)) :
    ∀ store : List (Nat × Documento),
      ((assigns.foldl (applyAssign st) store).map Prod.fst) = store.map Prod.fst := by
  induction assigns with
  | nil => intro store; rfl
  | cons a tl ih =>
    intro store
    rw [List.foldl_cons, ih, keys_applyAssign]

theorem keys_foldl_applyAcao (ids : List (String × Nat))
    (acoes : List (Nat × String)) :
    ∀ state : AcaoState,
      ((acoes.foldl (applyAcao ids) state).store.map Prod.fst) =
        state.store.map Prod.fst := by
  induction acoes with
  | nil => intro state; rfl
  | cons a tl ih =>
    intro state
    rw [List.foldl_cons, ih, keys_applyAcao]

theorem mem_keys_foldl_buildNodesStep (st : Settings) :
    ∀ (decls : List (Nat × String)) (acc : List (Nat × Documento)) (k : Nat),
      k ∈ ((decls.foldl (buildNodesStep st) acc).map Prod.fst) ↔
        k ∈ acc.map Prod.fst ∨ ∃ d ∈ decls, d.1 = k ∧ declValida d.2 = true := by
  intro decls
  induction decls with
  | nil => intro acc k; simp
  | cons d tl ih =>
    intro acc k
    rw [List.foldl_cons, ih]
    unfold buildNodesStep
    by_cases hv : declValida d.2 = true
    · rw [if_pos hv, mem_keys_insert]
      simp only [List.mem_cons]
      constructor
      · rintro ((h | h) | h)
        · exact Or.inr ⟨d, Or.inl rfl, h.symm, hv⟩
        · exact Or.inl h
        · rcases h with ⟨e, he, hek, hev⟩
          exact Or.inr ⟨e, Or.inr he, hek, hev⟩
      · rintro (h | h)
        · exact Or.inl (Or.inr h)
        · rcases h with ⟨e, he | he, hek, hev⟩
          · subst he; exact Or.inl (Or.inl hek.symm)
          · exact Or.inr ⟨e, he, hek, hev⟩
    · rw [if_neg hv]
      simp only [List.mem_cons]
      constructor
      · rintro (h | h)
        · exact Or.inl h
        · rcases h with ⟨e, he, hek, hev⟩
          exact Or.inr ⟨e, Or.inr he, hek, hev⟩
      · rintro (h | h)
        · exact Or.inl h
        · rcases h with ⟨e, he | he, hek, hev⟩
          · subst he; exact absurd hev hv
          · exact Or.inr ⟨e, he, hek, hev⟩

theorem nodup_keys_foldl_buildNodesStep (st : Settings)
    (decls : List (Nat × String)) (acc : List (Nat × Documento))
    (h : (acc.map Prod.fst).Nodup) :
    ((decls.foldl (buildNodesStep st) acc).map Prod.fst).Nodup := by
  refine foldl_preserve (fun s => (s.map Prod.fst).Nodup) _ ?_ decls acc h
  intro s d hs
  unfold buildNodesStep
  split
  · exact nodup_keys_insert _ _ _ hs
  · exact hs

theorem ordem_foldl_buildNodesStep (st : Settings)
    (decls : List (Nat × String)) (acc : List (Nat × Documento))
    (h : OrdemCoerente acc) :
    OrdemCoerente (decls.foldl (buildNodesStep st) acc) := by
  refine foldl_preserve OrdemCoerente _ ?_ decls acc h
  intro s d hs
  unfold buildNodesStep
  split
  · intro i doc hget
    rw [dictGet?_insert] at hget
    by_cases hdi : d.1 = i
    · rw [if_pos hdi] at hget
      subst hdi
      obtain rfl : mkDocumento st d.1 (parse_infra_args d.2) = doc :=
        Option.some.inj hget
      exact ordem_mkDocumento st d.1 (parse_infra_args d.2)
    · rw [if_neg hdi] at hget
      exact hs i doc hget
  · exact hs

theorem length_foldl_buildNodesStep (st : Settings) :
    ∀ (decls : List (Nat × String)) (acc : List (Nat × Documento)),
      ((decls.filter (fun d => declValida d.2)).map Prod.fst).Nodup →
      (∀ d ∈ decls, declValida d.2 = true → d.1 ∉ acc.map Prod.fst) →
      (decls.foldl (buildNodesStep st) acc).length =
        acc.length + (decls.filter (fun d => declValida d.2)).length := by
  intro decls
  induction decls with
  | nil => intro acc _ _; simp
  | cons d tl ih =>
    intro acc hnd hnotin
    rw [List.foldl_cons]
    by_cases hv : declValida d.2 = true
    · have hstep : buildNodesStep st acc d =
          dictInsert d.1 (mkDocumento st d.1 (parse_infra_args d.2)) acc := by
        unfold buildNodesStep
        rw [if_pos hv]
      rw [hstep]
      rw [List.filter_cons_of_pos (by simpa using hv)] at hnd ⊢
      rw [List.map_cons, List.nodup_cons] at hnd
      have hd1 : d.1 ∉ acc.map Prod.fst := hnotin d (List.mem_cons_self d tl) hv
      have hlen := length_insert_of_not_contains d.1
        (mkDocumento st d.1 (parse_infra_args d.2)) acc hd1
      have hkeys := keys_insert_of_not_contains d.1
        (mkDocumento st d.1 (parse_infra_args d.2)) acc hd1
      have hnotin2 : ∀ e ∈ tl, declValida e.2 = true →
          e.1 ∉ (dictInsert d.1 (mkDocumento st d.1 (parse_infra_args d.2)) acc).map Prod.fst := by
        intro e he hev hmem
        rw [hkeys, List.mem_append, List.mem_singleton] at hmem
        rcases hmem with hmem | hmem
        · exact hnotin e (List.mem_cons_of_mem d he) hev hmem
        · apply hnd.1
          rw [List.mem_map]
          exact ⟨e, by rw [List.mem_filter]; exact ⟨he, by simpa using hev⟩, hmem⟩
      rw [ih _ hnd.2 hnotin2, hlen, List.length_cons]
      omega
    · have hstep : buildNodesStep st acc d = acc := by
        unfold buildNodesStep
        rw [if_neg hv]
      rw [hstep, List.filter_cons_of_neg (by simpa using hv)]
      exact ih acc (by rwa [List.filter_cons_of_neg (by simpa using hv)] at hnd)
        (fun e he hev => hnotin e (List.mem_cons_of_mem d he) hev)

theorem length_filterMap_all_some {α β : Type} (f : α → Option β) :
    ∀ l : List α, (∀ x ∈ l, (f x).isSome) → (l.filterMap f).length = l.length := by
  intro l
  induction l with
  | nil => intro _; simp
  | cons x tl ih =>
    intro h
    rcases hx : f x with _ | b
    · exact absurd (h x (List.mem_cons_self x tl)) (by simp [hx])
    · simp only [List.filterMap_cons, hx, List.length_cons]
      rw [ih (fun y hy => h y (List.mem_cons_of_mem x hy))]

theorem ordemDo_of_get (store : List (Nat × Documento)) (hord : OrdemCoerente store)
    (i : Nat) (doc : Documento) (h : dictGet? i store = some doc) :
    ordemDo doc = some (i : Int) := by
  unfold ordemDo
  rw [hord i doc h]

theorem sortedDocs_length (store : List (Nat × Documento)) :
    (sortedDocs store).length = store.length := by
  unfold sortedDocs
  have hperm := List.perm_insertionSort (α := Nat) (· ≤ ·) (store.map Prod.fst)
  rw [length_filterMap_all_some]
  · rw [hperm.length_eq, List.length_map]
  · intro i hi
    rw [dictGet?_isSome_iff]
    exact hperm.mem_iff.mp hi

theorem sortedDocs_mem_ordem (store : List (Nat × Documento))
    (hord : OrdemCoerente store) (i : Nat) :
    (∃ doc ∈ sortedDocs store, ordemDo doc = some (i : Int)) ↔
      i ∈ store.map Prod.fst := by
  unfold sortedDocs
  have hperm := List.perm_insertionSort (α := Nat) (· ≤ ·) (store.map Prod.fst)
  constructor
  · rintro ⟨doc, hmem, hord2⟩
    rw [List.mem_filterMap] at hmem
    rcases hmem with ⟨j, hj, hget⟩
    have hodj := ordemDo_of_get store hord j doc hget
    rw [hodj] at hord2
    have hji : (j : Int) = (i : Int) := Option.some.inj hord2
    have hj' : j = i := by exact_mod_cast hji
    subst hj'
    exact hperm.mem_iff.mp hj
  · intro hi
    have hj : i ∈ List.insertionSort (· ≤ ·) (store.map Prod.fst) :=
      hperm.mem_iff.mpr hi
    have hsome : (dictGet? i store).isSome := (dictGet?_isSome_iff i store).mpr hi
    rcases hget : dictGet? i store with _ | doc
    · rw [hget] at hsome; simp at hsome
    · exact ⟨doc, List.mem_filterMap.mpr ⟨i, hj, hget⟩,
        ordemDo_of_get store hord i doc hget⟩

theorem filterMap_get_map_ordem (store : List (Nat × Documento))
    (hord : OrdemCoerente store) :
    ∀ l : List Nat, (∀ i ∈ l, i ∈ store.map Prod.fst) →
      ((l.filterMap (fun i => dictGet? i store)).filterMap ordemDo) =
        l.map (fun i : Nat => (i : Int)) := by
  intro l
  induction l with
  | nil => intro _; simp
  | cons i tl ih =>
    intro h
    have hsome := (dictGet?_isSome_iff i store).mpr (h i (List.mem_cons_self i tl))
    rcases hget : dictGet? i store with _ | doc
    · rw [hget] at hsome; simp at hsome
    · have hod := ordemDo_of_get store hord i doc hget
      simp only [List.filterMap_cons, hget, hod, List.map_cons]
      rw [ih (fun j hj => h j (List.mem_cons_of_mem i hj))]

theorem sortedDocs_sorted (store : List (Nat × Documento))
    (hord : OrdemCoerente store) (hnd : (store.map Prod.fst).Nodup) :
    List.Sorted (· < ·) ((sortedDocs store).filterMap ordemDo) := by
  unfold sortedDocs
  have hperm := List.perm_insertionSort (α := Nat) (· ≤ ·) (store.map Prod.fst)
  rw [filterMap_get_map_ordem store hord _ (fun i hi => hperm.mem_iff.mp hi)]
  have hsorted := List.sorted_insertionSort (α := Nat) (· ≤ ·) (store.map Prod.fst)
  have hnd2 : (List.insertionSort (· ≤ ·) (store.map Prod.fst)).Nodup :=
    hperm.nodup_iff.mpr hnd
  have hlt := List.Sorted.lt_of_le hsorted hnd2
  exact List.Pairwise.map _ (fun a b hab => by exact_mod_cast hab) hlt

/-! ## Claims -/

/-- C1: a node-declaration statement `Nos[i] = new infraArvoreNo(args)`
produces exactly one Document Node iff its decoded argument list has at
least 7 positional fields and its type-tag field contains "documento"
case-insensitively (`declValida`); declarations failing the test produce no
node; when the retained slot indexes are distinct, the parser yields exactly
one node per retained declaration; and the returned list is ordered by
ascending slot index. -/
theorem claim_C1_node_declarations (st : Settings) (decls : List (Nat × String))
    (assigns : List (Nat × String × String)) (acoes : List (Nat × String))
    (proc : Option Processo)
    (hnd : ((decls.filter (fun d => declValida d.2)).map Prod.fst).Nodup) :
    (∀ i : Nat,
      (∃ doc ∈ (parse_documentos_do_iframe st decls assigns acoes proc).1,
          ordemDo doc = some (i : Int)) ↔
        ∃ d ∈ decls, d.1 = i ∧ declValida d.2 = true) ∧
    (parse_documentos_do_iframe st decls assigns acoes proc).1.length =
      (decls.filter (fun d => declValida d.2)).length ∧
    List.Sorted (· < ·)
      ((parse_documentos_do_iframe st decls assigns acoes proc).1.filterMap ordemDo) := by
  have hmem0 := mem_keys_foldl_buildNodesStep st decls []
  unfold parse_documentos_do_iframe
  by_cases hempty : buildNodes st decls = []
  · rw [if_pos hempty]
    refine ⟨?_, ?_, by simp⟩
    · intro i
      constructor
      · rintro ⟨doc, hmem, _⟩
        simp at hmem
      · intro hex
        have hmem : i ∈ (buildNodes st decls).map Prod.fst := by
          rw [buildNodes, hmem0 i]
          exact Or.inr hex
        rw [hempty] at hmem
        simp at hmem
    · have hfil : decls.filter (fun d => declValida d.2) = [] := by
        rw [List.eq_nil_iff_forall_not_mem]
        intro d hd
        rw [List.mem_filter] at hd
        have hmem : d.1 ∈ (buildNodes st decls).map Prod.fst := by
          rw [buildNodes, hmem0 d.1]
          exact Or.inr ⟨d, hd.1, rfl, by simpa using hd.2⟩
        rw [hempty] at hmem
        simp at hmem
      rw [hfil]
      simp
  · rw [if_neg hempty]
    dsimp only
    set store1 := buildNodes st decls with hstore1def
    set ids := buildIds store1 with hidsdef
    set store2 := assigns.foldl (applyAssign st) store1 with hstore2def
    set final := acoes.foldl (applyAcao ids) ⟨store2, proc, []⟩ with hfinaldef
    have hkeys2 : store2.map Prod.fst = store1.map Prod.fst :=
      keys_foldl_applyAssign st assigns store1
    have hkeys3 : final.store.map Prod.fst = store2.map Prod.fst := by
      rw [hfinaldef]
      exact keys_foldl_applyAcao ids acoes ⟨store2, proc, []⟩
    have hordem1 : OrdemCoerente store1 := by
      rw [hstore1def, buildNodes]
      refine ordem_foldl_buildNodesStep st decls [] ?_
      intro i doc h
      simp [dictGet?] at h
    have hordem2 : OrdemCoerente store2 := by
      rw [hstore2def]
      exact foldl_preserve OrdemCoerente (applyAssign st)
        (fun s a hs => ordem_applyAssign st s a hs) assigns store1 hordem1
    have hordem3 : OrdemCoerente final.store := by
      rw [hfinaldef]
      exact foldl_preserve (fun state : AcaoState => OrdemCoerente state.store)
        (applyAcao ids) (fun s a hs => ordem_applyAcao ids s a hs) acoes
        ⟨store2, proc, []⟩ hordem2
    have hnd1 : (store1.map Prod.fst).Nodup := by
      rw [hstore1def, buildNodes]
      exact nodup_keys_foldl_buildNodesStep st decls [] (by simp)
    have hnd3 : (final.store.map Prod.fst).Nodup := by
      rw [hkeys3, hkeys2]; exact hnd1
    refine ⟨?_, ?_, sortedDocs_sorted final.store hordem3 hnd3⟩
    · intro i
      rw [sortedDocs_mem_ordem final.store hordem3 i, hkeys3, hkeys2, hstore1def,
        buildNodes, hmem0 i]
      simp
    · have hlen1 : final.store.length = store1.length := by
        have hcombo := congrArg List.length (hkeys3.trans hkeys2)
        simpa using hcombo
      rw [sortedDocs_length final.store, hlen1, hstore1def, buildNodes,
        length_foldl_buildNodesStep st decls [] hnd (by simp)]
      simp

theorem applyAssign_none (st : Settings) (store : List (Nat × Documento))
    (a : Nat × String × String) (h : dictGet? a.1 store = Option.none) :
    applyAssign st store a = store := by
  unfold applyAssign
  dsimp only
  split
  · rw [h]
  · rfl

theorem nodup_append_unique (target : List String) (v : String)
    (h : target.Nodup) : (append_unique target v).Nodup := by
  unfold append_unique
  split_ifs with hcond
  · refine List.Nodup.append h (List.nodup_singleton v) ?_
    intro a ha hb
    rw [List.mem_singleton] at hb
    subst hb
    exact hcond.2 (by simpa using ha)
  · exact h

theorem nodup_foldl_nomesStep (gs : List String) :
    (gs.foldl nomesStep []).Nodup := by
  refine foldl_preserve List.Nodup nomesStep ?_ gs [] (by simp)
  intro acc g hacc
  unfold nomesStep
  cases nomeDoGrupo g with
  | some nome => exact nodup_append_unique acc nome hacc
  | none => exact hacc

set_option maxRecDepth 100000 in
set_option maxHeartbeats 1000000 in
/-- C1 witness: two retained declarations and one with too few arguments. -/
theorem claim_C1_node_declarations_witness :
    ((fixDecls.filter (fun d => declValida d.2)).map Prod.fst).Nodup ∧
    ((∀ i : Nat,
      (∃ doc ∈ (parse_documentos_do_iframe stgFix fixDecls [] [] Option.none).1,
          ordemDo doc = some (i : Int)) ↔
        ∃ d ∈ fixDecls, d.1 = i ∧ declValida d.2 = true) ∧
    (parse_documentos_do_iframe stgFix fixDecls [] [] Option.none).1.length =
      (fixDecls.filter (fun d => declValida d.2)).length ∧
    List.Sorted (· < ·)
      ((parse_documentos_do_iframe stgFix fixDecls [] [] Option.none).1.filterMap ordemDo)) :=
  ⟨by decide, claim_C1_node_declarations stgFix fixDecls [] [] Option.none (by decide)⟩

set_option maxRecDepth 100000 in
set_option maxHeartbeats 1000000 in
/-- C4: a property-mutation statement `Nos[i].prop = value` whose slot `i`
has no retained declaration is silently ignored — it raises no error,
creates no node, and leaves the parse result (all nodes, all fields, and
the record) unchanged; a mutation whose slot was declared is applied to
that node (here: the `src` mutation of the fixture sets its download URL). -/
theorem claim_C4_mutacao_slot (st : Settings) (decls : List (Nat × String))
    (assigns : List (Nat × String × String)) (acoes : List (Nat × String))
    (proc : Option Processo) (i : Nat) (p v : String)
    (hno : ∀ d ∈ decls, declValida d.2 = true → d.1 ≠ i) :
    parse_documentos_do_iframe st decls (assigns ++ [(i, p, v)]) acoes proc =
      parse_documentos_do_iframe st decls assigns acoes proc ∧
    ((parse_documentos_do_iframe stgFix [(0, declDoc1)] [(0, "src", srcDoc1)] []
        Option.none).1.map (fun d => d.download_url)) =
      [some "https://www.sei.example/sei/sei/controlador.php?acao=documento_download_anexo&id_anexo=ANX-001"] := by
  constructor
  · have hmem0 := mem_keys_foldl_buildNodesStep st decls []
    have hnotin : i ∉ (buildNodes st decls).map Prod.fst := by
      rw [buildNodes, hmem0 i]
      rintro (h | ⟨d, hd, hdi, hdv⟩)
      · simp at h
      · exact hno d hd hdv hdi
    have hkeys2 : (assigns.foldl (applyAssign st) (buildNodes st decls)).map Prod.fst =
        (buildNodes st decls).map Prod.fst :=
      keys_foldl_applyAssign st assigns _
    have hget : dictGet? i (assigns.foldl (applyAssign st) (buildNodes st decls)) =
        Option.none := by
      rw [dictGet?_eq_none_iff, hkeys2]
      exact hnotin
    unfold parse_documentos_do_iframe
    by_cases hempty : buildNodes st decls = []
    · rw [if_pos hempty, if_pos hempty]
    · rw [if_neg hempty, if_neg hempty]
      dsimp only
      rw [List.foldl_append, List.foldl_cons, List.foldl_nil,
        applyAssign_none st _ (i, p, v) hget]
  · decide

set_option maxRecDepth 100000 in
set_option maxHeartbeats 1000000 in
/-- C4 witness: slot 7 has no declaration in the fixture stream. -/
theorem claim_C4_mutacao_slot_witness :
    (∀ d ∈ fixDecls, declValida d.2 = true → d.1 ≠ 7) ∧
    (parse_documentos_do_iframe stgFix fixDecls ([] ++ [(7, "src", srcDoc1)]) []
        Option.none =
      parse_documentos_do_iframe stgFix fixDecls [] [] Option.none ∧
    ((parse_documentos_do_iframe stgFix [(0, declDoc1)] [(0, "src", srcDoc1)] []
        Option.none).1.map (fun d => d.download_url)) =
      [some "https://www.sei.example/sei/sei/controlador.php?acao=documento_download_anexo&id_anexo=ANX-001"]) :=
  ⟨by decide,
    claim_C4_mutacao_slot stgFix fixDecls [] [] Option.none 7 "src" srcDoc1 (by decide)⟩

set_option maxRecDepth 100000 in
set_option maxHeartbeats 1000000 in
/-- C5: the signature-alert text is split into blank-line blocks, a leading
"assinado por" line is dropped per block and the first remaining line is a
signer name ("Assinado por\nFulano de Tal" yields exactly
["Fulano de Tal"]); signer names are deduplicated in encounter order (the
result never holds a duplicate); and the signer list attaches to the target
node when its identifier is known, otherwise to the record whose own
identifier equals the target identifier. -/
theorem claim_C5_assinatura_nomes :
    extract_assinatura_nomes "Assinado por\nFulano de Tal" = ["Fulano de Tal"] ∧
    (∀ s : String, (extract_assinatura_nomes s).Nodup) ∧
    ((parse_documentos_do_iframe stgFix [(0, declDoc1)] [] [(0, acaoAssinaturaDoc)]
        (some procFix)).1.map (fun d => (d.possui_assinaturas, d.assinantes))) =
      [(true, ["Fulano de Tal"])] ∧
    ((parse_documentos_do_iframe stgFix [(0, declDoc1)] [] [(0, acaoAssinaturaProc)]
        (some procFix)).2.map (fun pr => pr.assinantes)) = some ["Fulano de Tal"] := by
  refine ⟨by decide, ?_, by decide, by decide⟩
  intro s
  unfold extract_assinatura_nomes
  dsimp only
  split_ifs
  all_goals
    first
    | exact nodup_append_unique _ _ (nodup_foldl_nomesStep _)
    | exact nodup_foldl_nomesStep _
    | simp

/-- C5 witness: the fixture text decodes to the one-name list, and that
output is duplicate-free. -/
theorem claim_C5_assinatura_nomes_witness :
    extract_assinatura_nomes "Assinado por\nFulano de Tal" = ["Fulano de Tal"] ∧
    (extract_assinatura_nomes "Assinado por\nFulano de Tal").Nodup :=
  ⟨claim_C5_assinatura_nomes.1,
    claim_C5_assinatura_nomes.2.1 "Assinado por\nFulano de Tal"⟩

/-- C8 counterexample: on the fragment `"null x"` evaluation fails and the
decoder returns the keyword-substituted text `"None x"`, not the original
text verbatim as the claim states. -/
theorem claim_C8_counterexample :
    literalEval (normalizeLiteral "null x") = Option.none ∧
    convert_js_literal "null x" = PyTerm.scalar (PyVal.pystr "None x") ∧
    convert_js_literal "null x" ≠ PyTerm.scalar (PyVal.pystr "null x") := by
  decide

/-- C8 (amended): the literal decoder is total — when evaluation of the
cleaned fragment fails it returns the cleaned text (stripped, concat idiom
removed, `null`/`true`/`false` substituted), unquoted when quote-delimited,
rather than the original text verbatim; and the argument-list variant
returns the ordered decoded values when the bracketed list parses (commas
inside quoted strings tolerated) and the empty sequence when it does not. -/
theorem claim_C8_literal_decoder :
    (∀ v : String, pyStrip v ≠ "" →
      literalEval (normalizeLiteral v) = Option.none →
      convert_js_literal v =
        PyTerm.scalar (PyVal.pystr (unquoteFallback (normalizeLiteral v)))) ∧
    (∀ (v : String) (t : PyTerm), pyStrip v ≠ "" →
      literalEval (normalizeLiteral v) = some t → convert_js_literal v = t) ∧
    (∀ s : String, argsListEval (normalizeArgs s) = Option.none →
      parse_infra_args s = []) ∧
    (∀ (s : String) (xs : List PyTerm), pyStrip s ≠ "" →
      argsListEval (normalizeArgs s) = some xs → parse_infra_args s = xs) ∧
    parse_infra_args "1, \"a,b\", null" =
      [PyTerm.scalar (PyVal.pyint 1), PyTerm.scalar (PyVal.pystr "a,b"),
        PyTerm.scalar PyVal.pynone] ∧
    parse_infra_args "1 2" = [] := by
  refine ⟨?_, ?_, ?_, ?_, by decide, by decide⟩
  · intro v h1 h2
    unfold convert_js_literal
    rw [if_neg h1]
    dsimp only
    rw [h2]
  · intro v t h1 h2
    unfold convert_js_literal
    rw [if_neg h1]
    dsimp only
    rw [h2]
  · intro s h
    unfold parse_infra_args
    by_cases he : pyStrip s = ""
    · rw [if_pos he]
    · rw [if_neg he, h]
  · intro s xs h1 h2
    unfold parse_infra_args
    rw [if_neg h1, h2]

/-- C8 witness: the fallback branch at `"null x"`, the empty-sequence branch
at `"1 2"`. -/
theorem claim_C8_literal_decoder_witness :
    pyStrip "null x" ≠ "" ∧
    convert_js_literal "null x" =
      PyTerm.scalar (PyVal.pystr (unquoteFallback (normalizeLiteral "null x"))) ∧
    parse_infra_args "1 2" = [] :=
  ⟨by decide,
    claim_C8_literal_decoder.1 "null x" (by decide) (by decide),
    claim_C8_literal_decoder.2.2.1 "1 2" (by decide)⟩

theorem parse_caption_info_nonneg (txt : String) :
    0 ≤ (parse_caption_info txt).1 ∧ 0 ≤ (parse_caption_info txt).2 := by
  unfold parse_caption_info
  rcases h1 : captionTotal txt.data with _ | n <;>
    rcases h2 : captionRange txt.data with _ | p <;>
      dsimp only <;> constructor <;> (try split_ifs) <;> omega

theorem paginacaoDaTabela_nonneg (g : GrupoPagina) :
    0 ≤ (paginacaoDaTabela g).1 ∧ 0 ≤ (paginacaoDaTabela g).2 := by
  unfold paginacaoDaTabela
  split
  · rcases hc : g.caption with _ | txt
    · dsimp only
      constructor <;> split_ifs <;> omega
    · have hp := parse_caption_info_nonneg txt
      dsimp only
      constructor <;> split_ifs <;> omega
  · simp

theorem paginacaoBruta_tr_nonneg (g : GrupoPagina) : 0 ≤ (paginacaoBruta g).1 := by
  unfold paginacaoBruta
  have h := (paginacaoDaTabela_nonneg g).1
  dsimp only
  rcases hv : truthy g.hdn_itens with _ | v
  · exact h
  · dsimp only
    split_ifs
    · exact Int.natCast_nonneg _
    · exact h

/-- C2: items-per-page is the caption range length `(fim − inicio + 1)` when
the caption exposes a (non-degenerate) range, the fallbacks never yield an
items-per-page below 1, and the page count is exactly
`max(1, ceil(total / items))`: it is at least 1 (also with zero records),
`total ≤ pages * items`, and it is the least such count; the fixture caption
"... - 1 a 20 de 45 registros" yields items-per-page 20 and total-pages 3. -/
theorem claim_C2_paginacao (g : GrupoPagina) :
    (1 ≤ (paginacao_do_grupo g).itens_por_pagina ∧
    1 ≤ (paginacao_do_grupo g).total_paginas ∧
    (paginacao_do_grupo g).total_registros ≤
      (paginacao_do_grupo g).total_paginas * (paginacao_do_grupo g).itens_por_pagina ∧
    (∀ k : Int, 1 ≤ k →
      (paginacao_do_grupo g).total_registros ≤ k * (paginacao_do_grupo g).itens_por_pagina →
      (paginacao_do_grupo g).total_paginas ≤ k)) ∧
    (∀ (txt : String) (ini fim : Nat), g.tabela_presente = true →
      g.caption = some txt → captionRange txt.data = some (ini, fim) → ini ≤ fim →
      (paginacao_do_grupo g).itens_por_pagina = (fim : Int) - (ini : Int) + 1) ∧
    (paginacao_do_grupo gFix).itens_por_pagina = 20 ∧
    (paginacao_do_grupo gFix).total_paginas = 3 := by
  refine ⟨?_, ?_, by decide, by decide⟩
  · have htr := paginacaoBruta_tr_nonneg g
    unfold paginacao_do_grupo
    dsimp only
    set tr := (paginacaoBruta g).1 with htrdef
    set ipp0 := (paginacaoBruta g).2.1 with hipp0def
    set ipp := if ipp0 ≤ 0 then max 1 (if tr ≠ 0 then tr else 1) else ipp0 with hippdef
    have hipp1 : 1 ≤ ipp := by
      rw [hippdef]
      split_ifs <;> omega
    have hne : ipp ≠ 0 := by omega
    rw [if_pos hne]
    refine ⟨hipp1, by omega, ?_, ?_⟩
    · have hlt := Int.lt_ediv_add_one_mul_self (tr + ipp - 1) (b := ipp) (by omega)
      have hexp : ((tr + ipp - 1) / ipp + 1) * ipp = (tr + ipp - 1) / ipp * ipp + ipp := by
        ring
      have htrle : tr ≤ (tr + ipp - 1) / ipp * ipp := by omega
      have hqle : (tr + ipp - 1) / ipp ≤ max 1 ((tr + ipp - 1) / ipp) := le_max_right _ _
      calc tr ≤ (tr + ipp - 1) / ipp * ipp := htrle
        _ ≤ max 1 ((tr + ipp - 1) / ipp) * ipp :=
          mul_le_mul_of_nonneg_right hqle (by omega)
    · intro k hk hle
      have hlt : tr + ipp - 1 < (k + 1) * ipp := by
        have hexp : (k + 1) * ipp = k * ipp + ipp := by ring
        omega
      have hq : (tr + ipp - 1) / ipp < k + 1 :=
        (Int.ediv_lt_iff_lt_mul (by omega)).mpr hlt
      omega
  · intro txt ini fim ht hc hr hif
    have hpos : (0 : Int) < (fim : Int) - (ini : Int) + 1 := by
      have : (ini : Int) ≤ (fim : Int) := by exact_mod_cast hif
      omega
    have hpci : (parse_caption_info txt).2 = (fim : Int) - (ini : Int) + 1 := by
      unfold parse_caption_info
      rw [hr]
      dsimp only
      rw [max_eq_right (by omega)]
      split_ifs <;> omega
    have htab : (paginacaoDaTabela g).2 = (fim : Int) - (ini : Int) + 1 := by
      unfold paginacaoDaTabela
      rw [if_pos ht, hc]
      dsimp only
      rw [hpci]
      split_ifs <;> omega
    have hbru : (paginacaoBruta g).2.1 = (fim : Int) - (ini : Int) + 1 := by
      unfold paginacaoBruta
      dsimp only
      rw [htab]
      rcases truthy g.hdn_nro_itens with _ | v
      · rfl
      · dsimp only
        rcases pyToInt v with _ | nro
        · rfl
        · dsimp only
          rw [if_neg (by omega)]
    unfold paginacao_do_grupo
    dsimp only
    rw [hbru, if_neg (by omega)]

/-- C2 witness: the arithmetic characterization at the fixture caption. -/
theorem claim_C2_paginacao_witness :
    1 ≤ (paginacao_do_grupo gFix).itens_por_pagina ∧
    (paginacao_do_grupo gFix).itens_por_pagina = 20 :=
  ⟨(claim_C2_paginacao gFix).1.1, (claim_C2_paginacao gFix).2.2.1⟩

theorem baixarAux_all_fail (a : Nat → Except String String) :
    ∀ restantes t : Nat, 1 ≤ restantes →
      (∀ j, t ≤ j → j < t + restantes → ∃ e, a j = Except.error e) →
      ∃ e, baixarAux a t restantes = (t + restantes - 1, Option.none, some e) := by
  intro restantes
  induction restantes with
  | zero => intro t h; omega
  | succ r ih =>
    intro t _ hall
    obtain ⟨e, he⟩ := hall t (le_refl t) (by omega)
    by_cases hr : r = 0
    · subst hr
      exact ⟨e, by simp [baixarAux, he]⟩
    · obtain ⟨e2, he2⟩ := ih (t + 1) (by omega)
        (fun j hj1 hj2 => hall j (by omega) (by omega))
      refine ⟨e2, ?_⟩
      have hstep : baixarAux a t (r + 1) = baixarAux a (t + 1) r := by
        simp [baixarAux, he, hr]
      have harith : t + 1 + r - 1 = t + (r + 1) - 1 := by omega
      rw [hstep, he2, harith]

/-- C3: with a per-attempt outcome whose first two attempts raise a
recoverable error and whose third succeeds, the per-record flow yields a
success result with attempt count 3; a record whose attempts all fail
yields a failure result carrying the error description without raising; and
the sequential batch produces one independent per-record result for every
record, so one record's failures never block the rest. -/
theorem claim_C3_retry_em_lote (p : Processo)
    (att attF : Nat → Except String String) (n : Nat) (e1 e2 d : String)
    (hn3 : 3 ≤ n) (h1 : att 1 = Except.error e1) (h2 : att 2 = Except.error e2)
    (h3 : att 3 = Except.ok d) (hn1 : 1 ≤ n)
    (hfail : ∀ t, 1 ≤ t → t ≤ n → ∃ e, attF t = Except.error e) :
    ((baixar_pdf_processo p att n).sucesso = true ∧
      (baixar_pdf_processo p att n).caminho = some d ∧
      (baixar_pdf_processo p att n).tentativas = 3) ∧
    ((baixar_pdf_processo p attF n).sucesso = false ∧
      (baixar_pdf_processo p attF n).erro.isSome = true ∧
      (baixar_pdf_processo p attF n).tentativas = n) ∧
    (∀ (procs : List Processo) (attempts : Processo → Nat → Except String String)
      (opts : PDFDownloadOptions), opts.limite_processos = Option.none →
      baixar_pdfs_em_lote procs attempts opts =
        procs.map (fun q => baixar_pdf_processo q (attempts q) opts.tentativas)) := by
  refine ⟨?_, ?_, ?_⟩
  · obtain ⟨k, rfl⟩ : ∃ k, n = k + 3 := ⟨n - 3, by omega⟩
    have hrun : baixarAux att 1 (k + 3) = (3, some d, Option.none) := by
      have s1 : baixarAux att 1 (k + 3) = baixarAux att 2 (k + 2) := by
        have : k + 3 = (k + 2) + 1 := by omega
        rw [this]
        simp [baixarAux, h1]
      have s2 : baixarAux att 2 (k + 2) = baixarAux att 3 (k + 1) := by
        have : k + 2 = (k + 1) + 1 := by omega
        rw [this]
        simp [baixarAux, h2]
      have s3 : baixarAux att 3 (k + 1) = (3, some d, Option.none) := by
        have : k + 1 = k + 1 := rfl
        simp [baixarAux, h3]
      rw [s1, s2, s3]
    unfold baixar_pdf_processo
    rw [hrun]
    exact ⟨rfl, rfl, rfl⟩
  · obtain ⟨e, he⟩ := baixarAux_all_fail attF n 1 (by omega)
      (fun j hj1 hj2 => hfail j hj1 (by omega))
    have harith : 1 + n - 1 = n := by omega
    rw [harith] at he
    unfold baixar_pdf_processo
    rw [he]
    exact ⟨rfl, rfl, rfl⟩
  · intro procs attempts opts hlim
    unfold baixar_pdfs_em_lote
    rw [hlim]
    by_cases hp : procs = []
    · rw [if_pos hp, hp]
      simp
    · rw [if_neg hp]

/-- C3 witness: concrete attempt outcomes with n = 3. -/
theorem claim_C3_retry_em_lote_witness :
    ((baixar_pdf_processo procFix
        (fun t => if t ≤ 2 then Except.error "falha" else Except.ok "saida.pdf") 3).sucesso = true ∧
      (baixar_pdf_processo procFix
        (fun t => if t ≤ 2 then Except.error "falha" else Except.ok "saida.pdf") 3).caminho = some "saida.pdf" ∧
      (baixar_pdf_processo procFix
        (fun t => if t ≤ 2 then Except.error "falha" else Except.ok "saida.pdf") 3).tentativas = 3) ∧
    ((baixar_pdf_processo procFix (fun _ => Except.error "falha") 3).sucesso = false ∧
      (baixar_pdf_processo procFix (fun _ => Except.error "falha") 3).erro.isSome = true ∧
      (baixar_pdf_processo procFix (fun _ => Except.error "falha") 3).tentativas = 3) ∧
    (∀ (procs : List Processo) (attempts : Processo → Nat → Except String String)
      (opts : PDFDownloadOptions), opts.limite_processos = Option.none →
      baixar_pdfs_em_lote procs attempts opts =
        procs.map (fun q => baixar_pdf_processo q (attempts q) opts.tentativas)) :=
  claim_C3_retry_em_lote procFix
    (fun t => if t ≤ 2 then Except.error "falha" else Except.ok "saida.pdf")
    (fun _ => Except.error "falha") 3 "falha" "falha" "saida.pdf"
    (by decide) rfl rfl rfl (by decide)
    (fun t h1 h2 => ⟨"falha", rfl⟩)

theorem dictContains_insert {α β : Type} [DecidableEq α] (k k' : α) (v : β)
    (st : List (α × β)) :
    dictContains k (dictInsert k' v st) = true ↔ k = k' ∨ dictContains k st = true := by
  rw [dictContains_iff, mem_keys_insert, dictContains_iff]

/-- C6: the page-advance submission data is exactly the serialization of the
current listing form with the upper selector, the lower selector and the
hidden current-page field of the category overridden by the target page
number as text; every other field keeps its serialized value, and the key
set is unchanged. -/
theorem claim_C6_avanco_pagina (form : Form) (grupo : Categoria) (pagina : Int)
    (hsup : dictContains ("sel" ++ grupoNome grupo ++ "PaginacaoSuperior")
      (serializar_formulario form) = true)
    (hinf : dictContains ("sel" ++ grupoNome grupo ++ "PaginacaoInferior")
      (serializar_formulario form) = true)
    (hhid : dictContains ("hdn" ++ grupoNome grupo ++ "PaginaAtual")
      (serializar_formulario form) = true) :
    ∃ out, submeter_paginacao_data grupo pagina (serializar_formulario form) =
        Except.ok out ∧
      dictGet? ("sel" ++ grupoNome grupo ++ "PaginacaoSuperior") out =
        some (toString pagina) ∧
      dictGet? ("sel" ++ grupoNome grupo ++ "PaginacaoInferior") out =
        some (toString pagina) ∧
      dictGet? ("hdn" ++ grupoNome grupo ++ "PaginaAtual") out =
        some (toString pagina) ∧
      (∀ k, k ≠ "sel" ++ grupoNome grupo ++ "PaginacaoSuperior" →
        k ≠ "sel" ++ grupoNome grupo ++ "PaginacaoInferior" →
        k ≠ "hdn" ++ grupoNome grupo ++ "PaginaAtual" →
        dictGet? k out = dictGet? k (serializar_formulario form)) ∧
      out.map Prod.fst = (serializar_formulario form).map Prod.fst := by
  have hne12 : ("sel" ++ grupoNome grupo ++ "PaginacaoSuperior") ≠
      ("sel" ++ grupoNome grupo ++ "PaginacaoInferior") := by
    cases grupo <;> decide
  have hne13 : ("sel" ++ grupoNome grupo ++ "PaginacaoSuperior") ≠
      ("hdn" ++ grupoNome grupo ++ "PaginaAtual") := by
    cases grupo <;> decide
  have hne23 : ("sel" ++ grupoNome grupo ++ "PaginacaoInferior") ≠
      ("hdn" ++ grupoNome grupo ++ "PaginaAtual") := by
    cases grupo <;> decide
  have hc2 : dictContains ("sel" ++ grupoNome grupo ++ "PaginacaoInferior")
      (dictInsert ("sel" ++ grupoNome grupo ++ "PaginacaoSuperior")
        (toString pagina) (serializar_formulario form)) = true :=
    (dictContains_insert _ _ _ _).mpr (Or.inr hinf)
  have hc3 : dictContains ("hdn" ++ grupoNome grupo ++ "PaginaAtual")
      (dictInsert ("sel" ++ grupoNome grupo ++ "PaginacaoInferior") (toString pagina)
        (dictInsert ("sel" ++ grupoNome grupo ++ "PaginacaoSuperior")
          (toString pagina) (serializar_formulario form))) = true :=
    (dictContains_insert _ _ _ _).mpr
      (Or.inr ((dictContains_insert _ _ _ _).mpr (Or.inr hhid)))
  unfold submeter_paginacao_data
  dsimp only
  rw [if_pos hsup, if_pos hc2, if_pos hc3]
  refine ⟨_, rfl, ?_, ?_, ?_, ?_, ?_⟩
  · rw [dictGet?_insert, if_neg (Ne.symm hne13), dictGet?_insert,
      if_neg (Ne.symm hne12), dictGet?_insert, if_pos rfl]
  · rw [dictGet?_insert, if_neg (Ne.symm hne23), dictGet?_insert, if_pos rfl]
  · rw [dictGet?_insert, if_pos rfl]
  · intro k hk1 hk2 hk3
    rw [dictGet?_insert, if_neg (fun h => hk3 h.symm), dictGet?_insert,
      if_neg (fun h => hk2 h.symm), dictGet?_insert, if_neg (fun h => hk1 h.symm)]
  · rw [keys_insert_of_contains _ _ _ ((dictContains_iff _ _).mp hc3),
      keys_insert_of_contains _ _ _ ((dictContains_iff _ _).mp hc2),
      keys_insert_of_contains _ _ _ ((dictContains_iff _ _).mp hsup)]

/-- C6 witness: the fixture form data for "Recebidos". -/
theorem claim_C6_avanco_pagina_witness :
    dictContains "selRecebidosPaginacaoSuperior"
      (serializar_formulario formFix) = true ∧
    ∃ out, submeter_paginacao_data Categoria.Recebidos 2
        (serializar_formulario formFix) = Except.ok out ∧
      dictGet? ("sel" ++ grupoNome Categoria.Recebidos ++ "PaginacaoSuperior") out =
        some (toString (2 : Int)) ∧
      dictGet? ("sel" ++ grupoNome Categoria.Recebidos ++ "PaginacaoInferior") out =
        some (toString (2 : Int)) ∧
      dictGet? ("hdn" ++ grupoNome Categoria.Recebidos ++ "PaginaAtual") out =
        some (toString (2 : Int)) ∧
      (∀ k, k ≠ "sel" ++ grupoNome Categoria.Recebidos ++ "PaginacaoSuperior" →
        k ≠ "sel" ++ grupoNome Categoria.Recebidos ++ "PaginacaoInferior" →
        k ≠ "hdn" ++ grupoNome Categoria.Recebidos ++ "PaginaAtual" →
        dictGet? k out = dictGet? k (serializar_formulario formFix)) ∧
      out.map Prod.fst = (serializar_formulario formFix).map Prod.fst :=
  ⟨by decide,
    claim_C6_avanco_pagina formFix Categoria.Recebidos 2
      (by decide) (by decide) (by decide)⟩

/-- C7 counterexample: a configured overall ceiling of 0 is not treated
as 1 — it is ignored, so with 5 total pages the reconciler visits all 5
pages rather than min(5, 1) = 1 as the claim states. -/
theorem claim_C7_counterexample :
    PaginationOptions.limite_para { max_paginas_total := some 0 }
      Categoria.Recebidos 5 = 5 ∧
    paginasVisitadas 0 (PaginationOptions.limite_para { max_paginas_total := some 0 }
      Categoria.Recebidos 5) = 5 ∧
    paginasVisitadas 0 (PaginationOptions.limite_para { max_paginas_total := some 0 }
      Categoria.Recebidos 5) ≠ 1 := by
  decide

/-- C7 (amended): starting at page index 0, the number of pages visited for
a category equals the total-page count when no truthy ceiling is configured
(a ceiling of 0 counts as unconfigured); otherwise, with `m` the minimum of
the configured ceilings (overall and per-category), the count is 1 when
m < 1, and min(total pages, m) when m ≥ 1. -/
theorem claim_C7_limite_paginas (o : PaginationOptions) (grupo : Categoria)
    (tp : Int) (htp : 1 ≤ tp) :
    (limitesConfigurados o grupo = [] →
      paginasVisitadas 0 (o.limite_para grupo tp) = tp.toNat) ∧
    (∀ (l : Int) (ls : List Int), limitesConfigurados o grupo = l :: ls →
      ((ls.foldl min l < 1 → paginasVisitadas 0 (o.limite_para grupo tp) = 1) ∧
        (1 ≤ ls.foldl min l →
          paginasVisitadas 0 (o.limite_para grupo tp) =
            (min tp (ls.foldl min l)).toNat))) := by
  constructor
  · intro hnil
    unfold PaginationOptions.limite_para paginasVisitadas
    rw [hnil]
    dsimp only
    omega
  · intro l ls hcons
    unfold PaginationOptions.limite_para
    rw [hcons]
    dsimp only
    constructor
    · intro hm
      rw [if_pos hm]
      unfold paginasVisitadas
      omega
    · intro hm
      rw [if_neg (by omega)]
      unfold paginasVisitadas
      omega

/-- C7 witness: ceilings 7 (overall) and 2 (category) over 5 total pages. -/
theorem claim_C7_limite_paginas_witness :
    paginasVisitadas 0 (PaginationOptions.limite_para
      { max_paginas_recebidos := some 2, max_paginas_total := some 7 }
      Categoria.Recebidos 5) = (min (5 : Int) ([(2 : Int)].foldl min 7)).toNat :=
  ((claim_C7_limite_paginas
      { max_paginas_recebidos := some 2, max_paginas_total := some 7 }
      Categoria.Recebidos 5 (by decide)).2 7 [2] (by decide)).2 (by decide)

theorem mem_keys_serializarInputsStep (acc : List (String × String))
    (inp : InputEl) (n : String) :
    n ∈ (serializarInputsStep acc inp).map Prod.fst ↔
      contribuiNome inp n ∨ n ∈ acc.map Prod.fst := by
  unfold serializarInputsStep contribuiNome
  rcases hname : inp.name with _ | m
  · simp [hname]
  · dsimp only
    by_cases hm : m = ""
    · rw [if_pos hm]
      subst hm
      simp [hname]
      intro h1 h2
      exact absurd h1.symm h2
    · rw [if_neg hm]
      by_cases hrc : asciiLower (inp.itype.getD "") = "radio" ∨
          asciiLower (inp.itype.getD "") = "checkbox"
      · rw [if_pos hrc]
        by_cases hch : inp.checked = true
        · rw [if_pos hch, mem_keys_insert]
          constructor
          · rintro (h | h)
            · exact Or.inl ⟨by rw [h], by rwa [h], fun _ => hch⟩
            · exact Or.inr h
          · rintro (⟨h1, _, _⟩ | h)
            · exact Or.inl (Option.some.inj h1).symm
            · exact Or.inr h
        · rw [if_neg hch]
          constructor
          · intro h
            exact Or.inr h
          · rintro (⟨h1, _, h3⟩ | h)
            · exact absurd (h3 hrc) hch
            · exact h
      · rw [if_neg hrc, mem_keys_insert]
        constructor
        · rintro (h | h)
          · exact Or.inl ⟨by rw [h], by rwa [h], fun hc => absurd hc hrc⟩
          · exact Or.inr h
        · rintro (⟨h1, _, _⟩ | h)
          · exact Or.inl (Option.some.inj h1).symm
          · exact Or.inr h

theorem mem_keys_foldl_serializarInputs :
    ∀ (inputs : List InputEl) (acc : List (String × String)) (n : String),
      n ∈ ((inputs.foldl serializarInputsStep acc).map Prod.fst) ↔
        n ∈ acc.map Prod.fst ∨ ∃ inp ∈ inputs, contribuiNome inp n := by
  intro inputs
  induction inputs with
  | nil => intro acc n; simp
  | cons inp tl ih =>
    intro acc n
    rw [List.foldl_cons, ih, mem_keys_serializarInputsStep]
    simp only [List.mem_cons]
    constructor
    · rintro ((h | h) | h)
      · exact Or.inr ⟨inp, Or.inl rfl, h⟩
      · exact Or.inl h
      · rcases h with ⟨e, he, hc⟩
        exact Or.inr ⟨e, Or.inr he, hc⟩
    · rintro (h | h)
      · exact Or.inl (Or.inr h)
      · rcases h with ⟨e, he | he, hc⟩
        · subst he; exact Or.inl (Or.inl hc)
        · exact Or.inr ⟨e, he, hc⟩

theorem contains_processarRadiosStep (d : List (String × String))
    (g : String × List InputEl) (n : String) (h : dictContains n d = true) :
    dictContains n (processarRadiosStep d g) = true := by
  unfold processarRadiosStep
  split
  · split_ifs with hc
    · exact h
    · exact (dictContains_insert _ _ _ _).mpr (Or.inr h)
  · exact h

theorem get_processarRadiosStep (d : List (String × String))
    (g : String × List InputEl) (n : String) (h : dictContains n d = true) :
    dictGet? n (processarRadiosStep d g) = dictGet? n d := by
  unfold processarRadiosStep
  split
  · split_ifs with hc
    · rfl
    · rw [dictGet?_insert, if_neg]
      intro he
      rw [he] at hc
      exact hc h
  · rfl

theorem get_foldl_processarRadios :
    ∀ (groups : List (String × List InputEl)) (d : List (String × String))
      (n : String), dictContains n d = true →
      dictGet? n (groups.foldl processarRadiosStep d) = dictGet? n d := by
  intro groups
  induction groups with
  | nil => intro d n _; rfl
  | cons g tl ih =>
    intro d n h
    rw [List.foldl_cons, ih _ n (contains_processarRadiosStep d g n h),
      get_processarRadiosStep d g n h]

theorem mem_keys_radiosGroupStep (acc : List (String × List InputEl))
    (r : InputEl) (n : String) :
    n ∈ (radiosGroupStep acc r).map Prod.fst ↔
      (r.itype = some "radio" ∧ r.name = some n ∧ n ≠ "") ∨
        n ∈ acc.map Prod.fst := by
  unfold radiosGroupStep
  by_cases hr : r.itype = some "radio"
  · rw [if_pos hr]
    rcases hname : r.name with _ | m
    · simp [hname, hr]
    · dsimp only
      by_cases hm : m = ""
      · rw [if_pos hm]
        subst hm
        simp [hname, hr]
        intro h1 h2
        exact absurd h1.symm h2
      · rw [if_neg hm]
        by_cases hc : dictContains m acc = true
        · rw [if_pos hc, keys_update]
          constructor
          · intro h
            exact Or.inr h
          · rintro (⟨_, h2, _⟩ | h)
            · obtain rfl := (Option.some.inj h2).symm
              exact (dictContains_iff _ acc).mp hc
            · exact h
        · rw [if_neg hc, List.map_append, List.mem_append]
          constructor
          · rintro (h | h)
            · exact Or.inr h
            · rw [List.map_cons, List.mem_cons] at h
              rcases h with h | h
              · have hnm : n = m := h
                exact Or.inl ⟨hr, by rw [hnm], by rwa [hnm]⟩
              · simp at h
          · rintro (⟨_, h2, _⟩ | h)
            · obtain rfl := (Option.some.inj h2).symm
              exact Or.inr (by simp)
            · exact Or.inl h
  · rw [if_neg hr]
    constructor
    · intro h
      exact Or.inr h
    · rintro (⟨h1, _, _⟩ | h)
      · exact absurd h1 hr
      · exact h

theorem mem_keys_foldl_radiosGroup :
    ∀ (inputs : List InputEl) (acc : List (String × List InputEl)) (n : String),
      n ∈ ((inputs.foldl radiosGroupStep acc).map Prod.fst) ↔
        n ∈ acc.map Prod.fst ∨
          ∃ inp ∈ inputs, inp.itype = some "radio" ∧ inp.name = some n ∧ n ≠ "" := by
  intro inputs
  induction inputs with
  | nil => intro acc n; simp
  | cons inp tl ih =>
    intro acc n
    rw [List.foldl_cons, ih, mem_keys_radiosGroupStep]
    simp only [List.mem_cons]
    constructor
    · rintro ((h | h) | h)
      · exact Or.inr ⟨inp, Or.inl rfl, h⟩
      · exact Or.inl h
      · rcases h with ⟨e, he, hc⟩
        exact Or.inr ⟨e, Or.inr he, hc⟩
    · rintro (h | h)
      · exact Or.inl (Or.inr h)
      · rcases h with ⟨e, he | he, hc⟩
        · subst he; exact Or.inl (Or.inl hc)
        · exact Or.inr ⟨e, he, hc⟩

theorem contains_foldl_processarRadios :
    ∀ (groups : List (String × List InputEl)) (d : List (String × String))
      (n : String), (∀ g ∈ groups, g.2 ≠ []) →
      (dictContains n d = true ∨ n ∈ groups.map Prod.fst) →
      dictContains n (groups.foldl processarRadiosStep d) = true := by
  intro groups
  induction groups with
  | nil =>
    intro d n _ h
    rcases h with h | h
    · exact h
    · simp at h
  | cons g tl ih =>
    intro d n hne h
    rw [List.foldl_cons]
    have hcons : dictContains n (processarRadiosStep d g) = true ∨
        n ∈ tl.map Prod.fst := by
      rcases h with h | h
      · exact Or.inl (contains_processarRadiosStep d g n h)
      · rw [List.map_cons, List.mem_cons] at h
        rcases h with h | h
        · subst h
          left
          unfold processarRadiosStep
          rcases hg : g.2 with _ | ⟨r, rest⟩
          · exact absurd hg (hne g (List.mem_cons_self g tl))
          · dsimp only
            split_ifs with hc
            · exact hc
            · exact (dictContains_insert _ _ _ _).mpr (Or.inl rfl)
        · exact Or.inr h
    exact ih _ n (fun e he => hne e (List.mem_cons_of_mem g he)) hcons

theorem nonempty_dictUpdate_append (k : String) (r : InputEl) :
    ∀ (st : List (String × List InputEl)), (∀ g ∈ st, g.2 ≠ []) →
      ∀ g ∈ dictUpdate k (· ++ [r]) st, g.2 ≠ [] := by
  intro st
  induction st with
  | nil =>
    intro _ g hg
    simp [dictUpdate] at hg
  | cons hd tl ih =>
    intro h g hg
    obtain ⟨k0, v0⟩ := hd
    unfold dictUpdate at hg
    split_ifs at hg with hk
    · rcases List.mem_cons.mp hg with hg | hg
      · subst hg
        simp
      · exact h g (List.mem_cons_of_mem _ hg)
    · rcases List.mem_cons.mp hg with hg | hg
      · subst hg
        exact h (k0, v0) (List.mem_cons_self _ tl)
      · exact ih (fun e he => h e (List.mem_cons_of_mem _ he)) g hg

theorem nonempty_radiosGroupStep (acc : List (String × List InputEl))
    (r : InputEl) (h : ∀ g ∈ acc, g.2 ≠ []) :
    ∀ g ∈ radiosGroupStep acc r, g.2 ≠ [] := by
  unfold radiosGroupStep
  split_ifs
  · split
    · split_ifs with hm hc
      · exact h
      · exact nonempty_dictUpdate_append _ r acc h
      · intro g hg
        rcases List.mem_append.mp hg with hg | hg
        · exact h g hg
        · rw [List.mem_singleton] at hg
          subst hg
          simp
    · exact h
  · exact h

theorem nonempty_radiosPorNome (inputs : List InputEl) :
    ∀ g ∈ radiosPorNome inputs, g.2 ≠ [] := by
  unfold radiosPorNome
  refine foldl_preserve (fun acc => ∀ g ∈ acc, g.2 ≠ []) radiosGroupStep
    ?_ inputs [] (by simp)
  intro acc r hacc
  exact nonempty_radiosGroupStep acc r hacc

theorem dictGet?_append {α β : Type} [DecidableEq α] (k : α)
    (l1 l2 : List (α × β)) :
    dictGet? k (l1 ++ l2) =
      match dictGet? k l1 with
      | some v => some v
      | Option.none => dictGet? k l2 := by
  induction l1 with
  | nil => rfl
  | cons hd tl ih =>
    obtain ⟨k0, v0⟩ := hd
    by_cases h : k0 = k
    · simp [dictGet?, h]
    · simp [dictGet?, h, ih]

theorem head?_append_ne {α : Type} (gl l2 : List α) (h : gl ≠ []) :
    (gl ++ l2).head? = gl.head? := by
  cases gl with
  | nil => exact absurd rfl h
  | cons a t => rfl

/-- The head of the radio group named `n` after the grouping fold: an
inherited group keeps its head; a group born during the fold is headed by
the first radio named `n` among the scanned inputs. -/
theorem get_head_foldl_radiosGroup :
    ∀ (inputs : List InputEl) (acc : List (String × List InputEl)) (n : String),
      n ≠ "" →
      (∀ gl, dictGet? n acc = some gl → gl ≠ []) →
      (dictGet? n (inputs.foldl radiosGroupStep acc)).bind List.head? =
        (match dictGet? n acc with
         | some gl => gl.head?
         | Option.none => primeiroRadio inputs n) := by
  intro inputs
  induction inputs with
  | nil =>
    intro acc n hn hne
    rw [List.foldl_nil]
    cases hget : dictGet? n acc with
    | some gl => rfl
    | none => rfl
  | cons r tl ih =>
    intro acc n hn hne
    rw [List.foldl_cons]
    by_cases hmatch : r.itype = some "radio" ∧ r.name = some n
    · obtain ⟨hr, hname⟩ := hmatch
      have hp : (decide (r.itype = some "radio") &&
          decide (r.name = some n)) = true := by
        rw [Bool.and_eq_true, decide_eq_true_eq, decide_eq_true_eq]
        exact ⟨hr, hname⟩
      have hfirst : primeiroRadio (r :: tl) n = some r := by
        unfold primeiroRadio
        exact List.find?_cons_of_pos _ hp
      by_cases hc : dictContains n acc = true
      · have hstep : radiosGroupStep acc r = dictUpdate n (· ++ [r]) acc := by
          unfold radiosGroupStep
          rw [if_pos hr, hname]
          dsimp only
          rw [if_neg hn, if_pos hc]
        cases hget : dictGet? n acc with
        | none =>
          exfalso
          rw [dictContains, hget] at hc
          simp at hc
        | some gl =>
          have hne' : ∀ gl2, dictGet? n (dictUpdate n (· ++ [r]) acc) = some gl2 →
              gl2 ≠ [] := by
            intro gl2 hgl2
            rw [dictGet?_update, if_pos rfl, hget] at hgl2
            simp only [Option.map_some'] at hgl2
            rw [← Option.some.inj hgl2]
            simp
          rw [hstep, ih _ n hn hne', dictGet?_update, if_pos rfl, hget]
          have hmap : Option.map (fun v => v ++ [r]) (some gl) =
              some (gl ++ [r]) := rfl
          rw [hmap]
          exact head?_append_ne gl [r] (hne gl hget)
      · have hgetn : dictGet? n acc = Option.none := by
          cases hget : dictGet? n acc with
          | none => rfl
          | some gl =>
            exfalso
            rw [dictContains, hget] at hc
            simp at hc
        have hstep : radiosGroupStep acc r = acc ++ [(n, [r])] := by
          unfold radiosGroupStep
          rw [if_pos hr, hname]
          dsimp only
          rw [if_neg hn, if_neg hc]
        have hget2 : dictGet? n (acc ++ [(n, [r])]) = some [r] := by
          rw [dictGet?_append, hgetn]
          simp [dictGet?]
        have hne' : ∀ gl2, dictGet? n (acc ++ [(n, [r])]) = some gl2 →
            gl2 ≠ [] := by
          intro gl2 hgl2
          rw [hget2] at hgl2
          rw [← Option.some.inj hgl2]
          simp
        rw [hstep, ih _ n hn hne', hget2, hgetn, hfirst]
        rfl
    · have hskip : ¬((decide (r.itype = some "radio") &&
          decide (r.name = some n)) = true) := by
        intro hp
        rw [Bool.and_eq_true, decide_eq_true_eq, decide_eq_true_eq] at hp
        exact hmatch hp
      have hfirst : primeiroRadio (r :: tl) n = primeiroRadio tl n := by
        unfold primeiroRadio
        exact List.find?_cons_of_neg _ hskip
      have hpres : dictGet? n (radiosGroupStep acc r) = dictGet? n acc := by
        unfold radiosGroupStep
        by_cases hr : r.itype = some "radio"
        · rw [if_pos hr]
          rcases hnm : r.name with _ | m
          · rfl
          · dsimp only
            have hmn : m ≠ n := by
              intro he
              exact hmatch ⟨hr, by rw [hnm, he]⟩
            by_cases hm : m = ""
            · rw [if_pos hm]
            · rw [if_neg hm]
              by_cases hc : dictContains m acc = true
              · rw [if_pos hc, dictGet?_update, if_neg hmn]
              · rw [if_neg hc, dictGet?_append]
                cases hget : dictGet? n acc with
                | some gl => rfl
                | none =>
                  simp [dictGet?, hmn]
        · rw [if_neg hr]
      have hne' : ∀ gl, dictGet? n (radiosGroupStep acc r) = some gl →
          gl ≠ [] := by
        intro gl hgl
        rw [hpres] at hgl
        exact hne gl hgl
      rw [ih _ n hn hne', hpres, hfirst]

/-- The group map of `radios_by_name` heads every named group with the
first radio of that name. -/
theorem get_radiosPorNome_head (inputs : List InputEl) (n : String)
    (hn : n ≠ "") :
    (dictGet? n (radiosPorNome inputs)).bind List.head? =
      primeiroRadio inputs n := by
  have h := get_head_foldl_radiosGroup inputs [] n hn
    (by intro gl hgl; simp [dictGet?] at hgl)
  simpa [radiosPorNome, dictGet?] using h

/-- The post-pass injects the head radio's value for a group absent from
the data. -/
theorem get_foldl_processarRadios_fresh :
    ∀ (groups : List (String × List InputEl)) (d : List (String × String))
      (n : String) (r : InputEl) (rest : List InputEl),
      dictGet? n groups = some (r :: rest) →
      dictContains n d = false →
      dictGet? n (groups.foldl processarRadiosStep d) = some r.value := by
  intro groups
  induction groups with
  | nil =>
    intro d n r rest hg _
    cases hg
  | cons g tgroups ih =>
    intro d n r rest hg hd
    obtain ⟨k, gl⟩ := g
    rw [List.foldl_cons]
    by_cases hk : k = n
    · have hgl : gl = r :: rest := by
        have hg' := hg
        rw [dictGet?, if_pos hk] at hg'
        exact Option.some.inj hg'
      have hstep : processarRadiosStep d (k, gl) = dictInsert k r.value d := by
        unfold processarRadiosStep
        dsimp only
        rw [hgl]
        dsimp only
        rw [if_pos]
        simp [hk, hd]
      rw [hstep]
      have hcont : dictContains n (dictInsert k r.value d) = true := by
        rw [dictContains_insert]
        exact Or.inl hk.symm
      rw [get_foldl_processarRadios tgroups _ n hcont, dictGet?_insert,
        if_pos hk]
    · have hg' : dictGet? n tgroups = some (r :: rest) := by
        rw [dictGet?, if_neg hk] at hg
        exact hg
      have hd' : dictContains n (processarRadiosStep d (k, gl)) = false := by
        unfold processarRadiosStep
        dsimp only
        cases gl with
        | nil => exact hd
        | cons r0 t0 =>
          dsimp only
          split_ifs with hc
          · exact hd
          · rw [Bool.eq_false_iff]
            intro hct
            rcases (dictContains_insert _ _ _ _).mp hct with hh | hh
            · exact hk hh.symm
            · rw [hd] at hh
              simp at hh
      exact ih (processarRadiosStep d (k, gl)) n r rest hg' hd'

/-- C9: the serialized input map holds an entry named `n` exactly when some
input contributes it — a named non-radio/checkbox unconditionally, a
radio/checkbox only when checked; the radio post-pass never changes an
existing entry; after it every named radio group is present in the map;
and a radio-group name with no entry yet receives exactly the value of the
first radio of that group. -/
theorem claim_C9_serializacao (inputs : List InputEl) :
    (∀ n : String, n ∈ (serializar_inputs inputs).map Prod.fst ↔
      ∃ inp ∈ inputs, contribuiNome inp n) ∧
    (∀ n : String, dictContains n (serializar_inputs inputs) = true →
      dictGet? n (processar_radios_nao_marcados inputs (serializar_inputs inputs)) =
        dictGet? n (serializar_inputs inputs)) ∧
    (∀ n : String,
      (∃ inp ∈ inputs, inp.itype = some "radio" ∧ inp.name = some n ∧ n ≠ "") →
      dictContains n (processar_radios_nao_marcados inputs (serializar_inputs inputs)) =
        true) ∧
    (∀ (n : String) (r : InputEl), n ≠ "" →
      dictContains n (serializar_inputs inputs) = false →
      primeiroRadio inputs n = some r →
      dictGet? n (processar_radios_nao_marcados inputs (serializar_inputs inputs)) =
        some r.value) := by
  refine ⟨?_, ?_, ?_, ?_⟩
  · intro n
    unfold serializar_inputs
    rw [mem_keys_foldl_serializarInputs]
    simp
  · intro n h
    unfold processar_radios_nao_marcados
    exact get_foldl_processarRadios (radiosPorNome inputs) _ n h
  · intro n h
    unfold processar_radios_nao_marcados
    refine contains_foldl_processarRadios (radiosPorNome inputs) _ n
      (nonempty_radiosPorNome inputs) (Or.inr ?_)
    unfold radiosPorNome
    rw [mem_keys_foldl_radiosGroup]
    exact Or.inr h
  · intro n r hn hfresh hprim
    have hhead := get_radiosPorNome_head inputs n hn
    rw [hprim] at hhead
    cases hget : dictGet? n (radiosPorNome inputs) with
    | none =>
      rw [hget] at hhead
      simp at hhead
    | some gl =>
      rw [hget] at hhead
      cases gl with
      | nil => simp at hhead
      | cons r0 grest =>
        have hr0 : r0 = r := by simpa using hhead
        unfold processar_radios_nao_marcados
        exact hr0 ▸ get_foldl_processarRadios_fresh (radiosPorNome inputs)
          (serializar_inputs inputs) n r0 grest hget hfresh

/-- C9 witness: an unchecked radio group is injected with the first
radio's value, and a text entry is kept. -/
theorem claim_C9_serializacao_witness :
    dictContains "r"
      (processar_radios_nao_marcados inputsFix (serializar_inputs inputsFix)) = true ∧
    dictGet? "a"
      (processar_radios_nao_marcados inputsFix (serializar_inputs inputsFix)) =
      dictGet? "a" (serializar_inputs inputsFix) ∧
    dictGet? "r"
      (processar_radios_nao_marcados inputsFix (serializar_inputs inputsFix)) =
      some "x" :=
  ⟨(claim_C9_serializacao inputsFix).2.2.1 "r" (by decide),
    (claim_C9_serializacao inputsFix).2.1 "a" (by decide),
    (claim_C9_serializacao inputsFix).2.2.2 "r"
      ⟨some "r", some "radio", "x", false⟩ (by decide) (by decide) (by decide)⟩

theorem linhasValidas_cons_none (tl : List (Option Processo)) :
    linhasValidas (Option.none :: tl) = linhasValidas tl := by
  simp [linhasValidas, List.filterMap_cons]

theorem linhasValidas_cons_some_valid (p : Processo) (tl : List (Option Processo))
    (h : p.id_procedimento ≠ "") :
    linhasValidas (some p :: tl) = p :: linhasValidas tl := by
  simp [linhasValidas, List.filterMap_cons, h]

theorem linhasValidas_cons_some_invalid (p : Processo) (tl : List (Option Processo))
    (h : p.id_procedimento = "") :
    linhasValidas (some p :: tl) = linhasValidas tl := by
  simp [linhasValidas, List.filterMap_cons, h]

theorem mem_linhasValidas_ne (rows : List (Option Processo)) (q : Processo)
    (h : q ∈ linhasValidas rows) : q.id_procedimento ≠ "" := by
  unfold linhasValidas at h
  rcases List.mem_filterMap.mp h with ⟨op, _, hop⟩
  cases op with
  | some p =>
    dsimp only at hop
    split_ifs at hop with hp
    · cases Option.some.inj hop
      exact hp
  | none => cases hop

/-- The whole accumulation loop of `extrair_processos`, relative to an
accumulator whose seen-identifier list mirrors the record list: the mirror
is preserved, duplicate-freeness of the seen list is preserved, seen
identifiers persist, the added records form a sublist of the valid rows,
every valid row leaves its identifier seen, and every record of the output
is either inherited or the first valid row carrying its identifier. -/
theorem adicionar_spec :
    ∀ (rows : List (Option Processo)) (acc : List Processo × List String),
      acc.2 = acc.1.map Processo.id_procedimento →
      (rows.foldl adicionarLinhaStep acc).2 =
          (rows.foldl adicionarLinhaStep acc).1.map Processo.id_procedimento ∧
      (acc.2.Nodup → (rows.foldl adicionarLinhaStep acc).2.Nodup) ∧
      (∀ x ∈ acc.2, x ∈ (rows.foldl adicionarLinhaStep acc).2) ∧
      (∃ l, (rows.foldl adicionarLinhaStep acc).1 = acc.1 ++ l ∧
        l.Sublist (linhasValidas rows)) ∧
      (∀ q ∈ linhasValidas rows,
        q.id_procedimento ∈ (rows.foldl adicionarLinhaStep acc).2) ∧
      (∀ q ∈ (rows.foldl adicionarLinhaStep acc).1,
        q ∈ acc.1 ∨ (q.id_procedimento ∉ acc.2 ∧
          (linhasValidas rows).find?
            (fun x => x.id_procedimento == q.id_procedimento) = some q)) := by
  intro rows
  induction rows with
  | nil =>
    intro acc hinv
    refine ⟨hinv, fun h => h, fun x hx => hx,
      ⟨[], by simp, List.nil_sublist _⟩, ?_, ?_⟩
    · intro q hq
      simp [linhasValidas] at hq
    · intro q hq
      exact Or.inl hq
  | cons row tl ih =>
    intro acc hinv
    rw [List.foldl_cons]
    cases row with
    | none =>
      have hstep : adicionarLinhaStep acc Option.none = acc := rfl
      rw [hstep, linhasValidas_cons_none]
      exact ih acc hinv
    | some p =>
      by_cases hval : p.id_procedimento = ""
      · have hstep : adicionarLinhaStep acc (some p) = acc := by
          unfold adicionarLinhaStep
          dsimp only
          rw [if_neg]
          intro hcc
          exact hcc.1 hval
        rw [hstep, linhasValidas_cons_some_invalid p tl hval]
        exact ih acc hinv
      · by_cases hseen : acc.2.contains p.id_procedimento = true
        · have hstep : adicionarLinhaStep acc (some p) = acc := by
            unfold adicionarLinhaStep
            dsimp only
            rw [if_neg]
            intro hcc
            exact hcc.2 hseen
          rw [hstep, linhasValidas_cons_some_valid p tl hval]
          obtain ⟨hA, hB, hM, hC, hD, hE⟩ := ih acc hinv
          have hpid : p.id_procedimento ∈ acc.2 := by simpa using hseen
          refine ⟨hA, hB, hM, ?_, ?_, ?_⟩
          · obtain ⟨l, hl, hsub⟩ := hC
            exact ⟨l, hl, List.Sublist.cons p hsub⟩
          · intro q hq
            rcases List.mem_cons.mp hq with hq | hq
            · subst hq
              exact hM _ hpid
            · exact hD q hq
          · intro q hq
            rcases hE q hq with hq1 | ⟨hq1, hq2⟩
            · exact Or.inl hq1
            · refine Or.inr ⟨hq1, ?_⟩
              rw [List.find?_cons_of_neg, hq2]
              intro hbeq
              have he : p.id_procedimento = q.id_procedimento := by
                simpa using hbeq
              rw [he] at hpid
              exact hq1 hpid
        · have hstep : adicionarLinhaStep acc (some p) =
              (acc.1 ++ [p], acc.2 ++ [p.id_procedimento]) := by
            unfold adicionarLinhaStep
            dsimp only
            rw [if_pos ⟨hval, hseen⟩]
          have hfresh : p.id_procedimento ∉ acc.2 := by
            intro hm
            exact hseen (by simpa using hm)
          have hinv2 : (acc.1 ++ [p], acc.2 ++ [p.id_procedimento]).2 =
              (acc.1 ++ [p], acc.2 ++ [p.id_procedimento]).1.map
                Processo.id_procedimento := by
            dsimp only
            rw [hinv, List.map_append]
            rfl
          rw [hstep, linhasValidas_cons_some_valid p tl hval]
          obtain ⟨hA, hB, hM, hC, hD, hE⟩ :=
            ih (acc.1 ++ [p], acc.2 ++ [p.id_procedimento]) hinv2
          refine ⟨hA, ?_, ?_, ?_, ?_, ?_⟩
          · intro hnd
            refine hB ?_
            refine List.Nodup.append hnd (List.nodup_singleton _) ?_
            intro a ha hb
            rw [List.mem_singleton] at hb
            subst hb
            exact hfresh ha
          · intro x hx
            exact hM x (List.mem_append.mpr (Or.inl hx))
          · obtain ⟨l, hl, hsub⟩ := hC
            refine ⟨p :: l, ?_, List.Sublist.cons₂ p hsub⟩
            rw [hl, List.append_assoc]
            rfl
          · intro q hq
            rcases List.mem_cons.mp hq with hq | hq
            · subst hq
              exact hM _ (List.mem_append.mpr (Or.inr (by simp)))
            · exact hD q hq
          · intro q hq
            rcases hE q hq with hq1 | ⟨hq1, hq2⟩
            · rcases List.mem_append.mp hq1 with hq1 | hq1
              · exact Or.inl hq1
              · rw [List.mem_singleton] at hq1
                subst hq1
                refine Or.inr ⟨hfresh, ?_⟩
                rw [List.find?_cons_of_pos]
                simp
            · rw [List.mem_append] at hq1
              push_neg at hq1
              refine Or.inr ⟨hq1.1, ?_⟩
              rw [List.find?_cons_of_neg, hq2]
              intro hbeq
              have he : p.id_procedimento = q.id_procedimento := by
                simpa using hbeq
              exact hq1.2 (by rw [he]; exact List.mem_singleton.mpr rfl)

set_option maxRecDepth 100000 in
set_option maxHeartbeats 1000000 in
/-- C10: the listing extraction returns only records with a non-empty
server identifier; the identifiers are pairwise distinct across both
category tables combined; the output is a sublist of the valid rows of the
two tables in scan order (Recebidos first); every valid row's identifier is
represented; and each returned record is the first-seen valid row carrying
its identifier. -/
theorem claim_C10_dedup (r g : List (Option Processo)) :
    (∀ q ∈ extrair_processos r g, q.id_procedimento ≠ "") ∧
    ((extrair_processos r g).map Processo.id_procedimento).Nodup ∧
    (extrair_processos r g).Sublist (linhasValidas (r ++ g)) ∧
    (∀ q ∈ linhasValidas (r ++ g), ∃ p ∈ extrair_processos r g,
      p.id_procedimento = q.id_procedimento) ∧
    (∀ q ∈ extrair_processos r g,
      (linhasValidas (r ++ g)).find?
        (fun x => x.id_procedimento == q.id_procedimento) = some q) := by
  have hfold : extrair_processos r g =
      ((r ++ g).foldl adicionarLinhaStep ([], [])).1 := by
    unfold extrair_processos adicionarLinhas
    rw [List.foldl_append]
  obtain ⟨hA, hB, _, hC, hD, hE⟩ :=
    adicionar_spec (r ++ g) ([], []) rfl
  have hfind : ∀ q ∈ ((r ++ g).foldl adicionarLinhaStep ([], [])).1,
      (linhasValidas (r ++ g)).find?
        (fun x => x.id_procedimento == q.id_procedimento) = some q := by
    intro q hq
    rcases hE q hq with hq1 | ⟨_, hq2⟩
    · cases hq1
    · exact hq2
  refine ⟨?_, ?_, ?_, ?_, ?_⟩
  · intro q hq
    rw [hfold] at hq
    exact mem_linhasValidas_ne (r ++ g) q
      (List.mem_of_find?_eq_some (hfind q hq))
  · rw [hfold, ← hA]
    exact hB (List.nodup_nil)
  · rw [hfold]
    obtain ⟨l, hl, hsub⟩ := hC
    rw [hl]
    simpa using hsub
  · intro q hq
    have hid := hD q hq
    rw [hA] at hid
    rcases List.mem_map.mp hid with ⟨p, hp, hpq⟩
    rw [hfold]
    exact ⟨p, hp, hpq⟩
  · intro q hq
    rw [hfold] at hq
    exact hfind q hq

set_option maxRecDepth 100000 in
set_option maxHeartbeats 1000000 in
/-- C10 witness: a duplicated identifier in the Gerados table is dropped,
and the kept record is the one first seen in the Recebidos table. -/
theorem claim_C10_dedup_witness :
    (∀ q ∈ extrair_processos rowsRecFix rowsGerFix, q.id_procedimento ≠ "") ∧
    (linhasValidas (rowsRecFix ++ rowsGerFix)).find?
      (fun x => x.id_procedimento == procA.id_procedimento) = some procA :=
  ⟨(claim_C10_dedup rowsRecFix rowsGerFix).1,
    (claim_C10_dedup rowsRecFix rowsGerFix).2.2.2.2 procA (by decide)⟩

end SEI
